import Mathlib

/-!
Verification of the `persist` fault-tolerant persistence layer.

This file gives a shallow embedding of the C++ sources:
  * `src/inc/crc16.h`   — the nibble-table CRC-16 engine (`Crc16` namespace);
  * `src/persist.h`     — the `Persist` template class (`Persist` namespace).

Machine integers are embedded as `Nat` with explicit `% 2^16` where the C++
code relies on `uint16_t` wrap-around, and `Int` for the `int32_t` field
`active_block_n_` (whose only negative value in reachable states is the
sentinel `-1`).  The NVMem driver, which is an external template parameter of
`Persist`, is embedded as a record of possibly-failing operations over an
abstract state, following the contract documented in
`src/inc/nvmem_template.h`; an "ideal" instance over a byte store
`Nat → Nat` realizes fault-free flash semantics, and a counting wrapper
observes how many `Write`/`Erase` operations an execution performs.
-/

namespace Crc16

/-- Polynomial `kPolynomial = 0x1021` from `src/inc/crc16.h`. -/
def kPolynomial : Nat := 0x1021

/-- One iteration of the loop body of `Crc16::ComputeTableEntry`:
`if (x & 0x8000) { x <<= 1; x ^= kPolynomial; } else { x <<= 1; }`
on a `uint16_t`. -/
def crcRound (x : Nat) : Nat :=
  if x &&& 0x8000 ≠ 0 then ((x <<< 1) % 65536) ^^^ kPolynomial
  else (x <<< 1) % 65536

/-- `n` successive applications of `crcRound`. -/
def crcRounds : Nat → Nat → Nat
  | 0, x => x
  | n + 1, x => crcRounds n (crcRound x)

/-- `Crc16::ComputeTableEntry` (src/inc/crc16.h lines 80-98): shift the
`uint16_t` argument left by 8 and run 8 rounds of the CRC LFSR. -/
def ComputeTableEntry (x : Nat) : Nat :=
  crcRounds 8 ((x <<< 8) % 65536)

/-- Entry `i` of the low-nibble table `ltable_` built by `Crc16::Init`. -/
def ltable (i : Nat) : Nat := ComputeTableEntry i

/-- Entry `i` of the high-nibble table `htable_` built by `Crc16::Init`
(`htable_[i] = ComputeTableEntry(i << 4)` on a `uint16_t` argument). -/
def htable (i : Nat) : Nat := ComputeTableEntry ((i <<< 4) % 65536)

/-- One iteration of the loop in `Crc16::Process` (src/inc/crc16.h lines
58-62): `index = (crc_ >> 8) ^ *byte` truncated to `uint8_t`, then
`crc_ = (crc_ << 8) ^ ltable_[index & 0xF] ^ htable_[index >> 4]`
truncated to `uint16_t`. -/
def ProcessByte (crc b : Nat) : Nat :=
  let index := ((crc >>> 8) ^^^ b) &&& 0xFF
  ((crc <<< 8) ^^^ ltable (index &&& 0xF) ^^^ htable (index >>> 4)) % 65536

/-- `Crc16::Process` folded over a byte list, starting from the current
register value (set beforehand by `Crc16::Seed`) and returning the final
register value. -/
def Process (crc : Nat) (bytes : List Nat) : Nat :=
  bytes.foldl ProcessByte crc

/-- Modelled from the spec (§4.1 and §6): the reference CRC-16 round, a plain
MSB-first shift-and-xor step with polynomial `0x1021` on a 16-bit register. -/
def specRound (x : Nat) : Nat :=
  if x < 0x8000 then (2 * x) % 65536
  else ((2 * x) % 65536) ^^^ 0x1021

/-- Modelled from the spec: fold one input byte into the register, MSB first:
xor the byte into the top 8 bits, then run 8 reference rounds.  No input or
output reflection and no final xor. -/
def specCrcByte (crc b : Nat) : Nat :=
  crcRoundsSpec 8 ((crc ^^^ (b <<< 8)) % 65536)
where
  /-- run `n` reference rounds -/
  crcRoundsSpec : Nat → Nat → Nat
    | 0, x => x
    | n + 1, x => crcRoundsSpec n (specRound x)

/-- Modelled from the spec: the reference bitwise CRC-16 (polynomial `0x1021`,
MSB-first, no reflection, no final xor) applied byte-by-byte from a seed. -/
def specCrc (seed : Nat) (bytes : List Nat) : Nat :=
  bytes.foldl specCrcByte seed

end Crc16

namespace Persist

/-- The `persist::Result` enumeration (src/persist.h lines 35-42). -/
inductive Result where
  | SUCCESS
  | FAIL_NO_DATA
  | FAIL_ERASE
  | FAIL_WRITE
  | FAIL_READ
deriving DecidableEq, Repr

/-- The compile-time parameters of one `Persist<NVMem, TData,
datatype_version, assert_fault_tolerant>` instantiation: the NVMem constants
and `sizeof(TData)` plus the datatype version tag.  `fillByte` and `version`
are 8-bit values in C++. -/
structure Config where
  dataSize : Nat
  writeGran : Nat
  eraseGran : Nat
  memSize : Nat
  fillByte : Nat
  version : Nat
deriving DecidableEq, Repr

/-- `Persist::PadSize` (src/persist.h lines 156-161). -/
def PadSize (unpadded_size granularity : Nat) : Nat :=
  (granularity - unpadded_size % granularity) % granularity

/-- `kBlockPaddingSize` (src/persist.h lines 165-167). -/
def kBlockPaddingSize (cfg : Config) : Nat :=
  PadSize (cfg.dataSize + 2 + 2) cfg.writeGran

/-- `kBlockSize = sizeof(Block)` for the packed struct `Block`
(src/persist.h lines 169-177): data bytes, 2-byte sequence, 2-byte CRC,
padding. -/
def kBlockSize (cfg : Config) : Nat :=
  cfg.dataSize + 2 + 2 + kBlockPaddingSize cfg

/-- `kPageSize` (src/persist.h lines 178-179). -/
def kPageSize (cfg : Config) : Nat :=
  kBlockSize cfg + PadSize (kBlockSize cfg) cfg.eraseGran

/-- `kBlocksPerPage` (src/persist.h line 180). -/
def kBlocksPerPage (cfg : Config) : Nat :=
  kPageSize cfg / kBlockSize cfg

/-- `kNumBlocks` (src/persist.h lines 181-183); the cap is
`numeric_limits<uint16_t>::max() / 2 + 1 = 32768`. -/
def kNumBlocks (cfg : Config) : Nat :=
  min ((cfg.memSize / kPageSize cfg) * kBlocksPerPage cfg) (65535 / 2 + 1)

/-- `kNumPages` (src/persist.h lines 184-185). -/
def kNumPages (cfg : Config) : Nat :=
  (kNumBlocks cfg + kBlocksPerPage cfg - 1) / kBlocksPerPage cfg

/-- `Persist::BlockLocation` (src/persist.h lines 250-255). -/
def BlockLocation (cfg : Config) (block_n : Nat) : Nat :=
  let page_n := block_n / kBlocksPerPage cfg
  page_n * kPageSize cfg + (block_n - page_n * kBlocksPerPage cfg) * kBlockSize cfg

/-- The 16-bit seed passed to `Crc16::Seed` in `Persist::GetCRC`
(src/persist.h lines 245-246): `seed | (~seed << 8)` truncated to
`uint16_t`, where `seed = datatype_version` is an 8-bit value, so the low
16 bits of `~seed << 8` are `(seed ^ 0xFF) << 8`. -/
def crcSeedOf (v : Nat) : Nat :=
  v ||| ((v ^^^ 0xFF) <<< 8)

/-- Two little-endian bytes of a 16-bit value (host byte order of the
packed struct fields `sequence_n` and `crc`). -/
def le16 (x : Nat) : List Nat := [x % 256, x / 256 % 256]

/-- `Persist::GetCRC` (src/persist.h lines 243-248): seed the engine with
`crcSeedOf version` and process the first `sizeof(TData) + 2` bytes of the
block image (`data` followed by `sequence_n`). -/
def GetCRC (cfg : Config) (blockBytes : List Nat) : Nat :=
  Crc16.Process (crcSeedOf cfg.version) (blockBytes.take (cfg.dataSize + 2))

/-- The byte image of the packed struct `Block`: `data`, `sequence_n`,
`crc`, and padding filled with `NVMem::kFillByte`. -/
def encodeBlock (cfg : Config) (data : List Nat) (seq crc : Nat) : List Nat :=
  data ++ le16 seq ++ le16 crc ++ List.replicate (kBlockPaddingSize cfg) cfg.fillByte

/-- The `sequence_n` field read from a block image (little-endian). -/
def blockSeq (cfg : Config) (bytes : List Nat) : Nat :=
  bytes.getD cfg.dataSize 0 + 256 * bytes.getD (cfg.dataSize + 1) 0

/-- The `crc` field read from a block image (little-endian). -/
def blockCrc (cfg : Config) (bytes : List Nat) : Nat :=
  bytes.getD (cfg.dataSize + 2) 0 + 256 * bytes.getD (cfg.dataSize + 3) 0

/-- The in-memory instance state: the cached block image `block_`, the
active block index `active_block_n_` (an `int32_t`, `-1` meaning none) and
the 16-bit sequence number `sequence_`. -/
structure PState where
  block : List Nat
  active : Int
  seq : Nat
deriving DecidableEq, Repr

/-- The NVMem driver contract from `src/inc/nvmem_template.h`, over an
abstract driver state `σ`: each operation may fail (`none`), `Read` returns
the bytes read, `Write`/`Erase` return the updated driver state. -/
structure NVDriver (σ : Type) where
  Read : σ → Nat → Nat → Option (List Nat)
  Writable : σ → Nat → Nat → Bool
  Write : σ → Nat → List Nat → Option σ
  Erase : σ → Nat → Nat → Option σ

/-- A byte store: contents of the NVMem region, addressed by offset. -/
def Mem : Type := Nat → Nat

/-- Read `n` bytes starting at `loc`. -/
def readBytes (m : Mem) (loc n : Nat) : List Nat :=
  (List.range n).map fun k => m (loc + k)

/-- Overwrite the bytes starting at `loc` with `bs`. -/
def updateBytes (m : Mem) (loc : Nat) (bs : List Nat) : Mem :=
  fun i => if loc ≤ i ∧ i < loc + bs.length then bs.getD (i - loc) 0 else m i

/-- The ideal fault-free NVMem driver over a byte store: reads, writes and
erases succeed exactly when in range; `Writable` holds when every byte of
the range is currently `kFillByte` (flash semantics, per the contract in
`src/inc/nvmem_template.h`); `Erase` fills the range with `kFillByte`. -/
def idealNV (cfg : Config) : NVDriver Mem where
  Read m loc n := if loc + n ≤ cfg.memSize then some (readBytes m loc n) else none
  Writable m loc n := (List.range n).all fun k => m (loc + k) == cfg.fillByte
  Write m loc bs := if loc + bs.length ≤ cfg.memSize then some (updateBytes m loc bs) else none
  Erase m loc n :=
    if loc + n ≤ cfg.memSize then some (updateBytes m loc (List.replicate n cfg.fillByte))
    else none

/-- Wrap a driver so that the state also counts how many `Write` and
`Erase` operations have been issued (in that order). -/
def countingDriver {σ : Type} (d : NVDriver σ) : NVDriver (σ × Nat × Nat) where
  Read t loc n := d.Read t.1 loc n
  Writable t loc n := d.Writable t.1 loc n
  Write t loc bs := (d.Write t.1 loc bs).map fun s => (s, t.2.1 + 1, t.2.2)
  Erase t loc n := (d.Erase t.1 loc n).map fun s => (s, t.2.1, t.2.2 + 1)

/-- The sequence-number acceptance test of the recovery scanner
(src/persist.h lines 219-221, the two disjuncts after the `-1` check):
candidate `a` replaces current best `b` when
`(a > b && a - b < kNumBlocks) || (a < b && b - a >= kNumBlocks)`.
Both subtractions are exact in C++ (`uint16_t` values promoted to `int`). -/
def acceptSeq (numBlocks a b : Nat) : Bool :=
  (decide (b < a) && decide (a - b < numBlocks)) ||
  (decide (a < b) && decide (numBlocks ≤ b - a))

/-- The body of the scan loop of `Persist::Reset` (src/persist.h lines
204-227) over the listed block indices, for a driver `d` in state `s`.
On a read failure the loop exits with `FAIL_READ` and `active_block_n_ = -1`
(the partially-read `block_` is modelled as left unchanged; it is never
observed while `active_block_n_ = -1`). -/
def resetScanList {σ : Type} (d : NVDriver σ) (s : σ) (cfg : Config) :
    List Nat → PState → Result × PState
  | [], p => (Result.SUCCESS, p)
  | i :: rest, p =>
    match d.Read s (BlockLocation cfg i) (kBlockSize cfg) with
    | none => (Result.FAIL_READ, { p with active := -1 })
    | some bytes =>
      if blockCrc cfg bytes = GetCRC cfg bytes then
        let sn := blockSeq cfg bytes
        if p.active == -1 || acceptSeq (kNumBlocks cfg) sn p.seq then
          resetScanList d s cfg rest { block := bytes, active := (i : Int), seq := sn }
        else
          resetScanList d s cfg rest { p with block := bytes }
      else
        resetScanList d s cfg rest { p with block := bytes }

/-- `Persist::Reset` (src/persist.h lines 199-241): clear the state, scan
every block, and re-read the chosen block into the cache. -/
def Reset {σ : Type} (d : NVDriver σ) (s : σ) (cfg : Config) (p : PState) :
    Result × PState :=
  match resetScanList d s cfg (List.range (kNumBlocks cfg)) { p with seq := 0, active := -1 } with
  | (Result.SUCCESS, p1) =>
    if p1.active == -1 then (Result.SUCCESS, p1)
    else
      match d.Read s (BlockLocation cfg p1.active.toNat) (kBlockSize cfg) with
      | none => (Result.FAIL_READ, { p1 with active := -1 })
      | some bytes => (Result.SUCCESS, { p1 with block := bytes })
  | r => r

/-- `Persist::Init` (src/persist.h lines 51-55).  `Crc16::Init` only builds
the global tables (folded into the `ltable`/`htable` definitions here) and
zeroes the CRC register, which `GetCRC` re-seeds before every use, so `Init`
reduces to `Reset`. -/
def Init {σ : Type} (d : NVDriver σ) (s : σ) (cfg : Config) (p : PState) :
    Result × PState :=
  Reset d s cfg p

/-- `Persist::Load` (src/persist.h lines 57-66): fail with no data when no
block is active, otherwise copy the cached data bytes into the output.
No NVMem operation is performed (the driver is not an argument). -/
def Load (cfg : Config) (p : PState) (out : List Nat) : Result × List Nat :=
  if p.active == -1 then (Result.FAIL_NO_DATA, out)
  else (Result.SUCCESS, p.block.take cfg.dataSize)

/-- `Persist::DataIsSame` (src/persist.h lines 280-284): a block is active
and the cached `block_.data` equals the argument byte-for-byte. -/
def DataIsSame (cfg : Config) (p : PState) (data : List Nat) : Bool :=
  p.active != -1 && p.block.take cfg.dataSize == data

/-- The do-while loop of `Persist::NextWritableBlock` (src/persist.h lines
264-277), with `fuel` bounding the number of iterations (the C++ loop runs
at most `kNumBlocks` times before `next_block_n` returns to
`current_block_n`).  Mirrors the source: advance, probe `Writable`, break on
hit, stop when back at the start; the final result is `-1` when the loop
stopped at `current_block_n` (even if that block itself probed writable). -/
def nextWritableAux {σ : Type} (d : NVDriver σ) (s : σ) (cfg : Config)
    (current : Nat) : Nat → Nat → Int
  | 0, next => if next == current then -1 else (next : Int)
  | fuel + 1, next =>
    let nx := (next + 1) % kNumBlocks cfg
    if d.Writable s (BlockLocation cfg nx) (kBlockSize cfg) then
      (if nx == current then -1 else (nx : Int))
    else if nx == current then -1
    else nextWritableAux d s cfg current fuel nx

/-- `Persist::NextWritableBlock` (src/persist.h lines 257-278).  A `-1`
argument is replaced by `kNumBlocks - 1` so the scan starts at block 0.
(Other negative values cannot occur: `active_block_n_` is only ever `-1`
or a block index.) -/
def NextWritableBlock {σ : Type} (d : NVDriver σ) (s : σ) (cfg : Config)
    (current : Int) : Int :=
  let cur : Nat := if current == -1 then kNumBlocks cfg - 1 else current.toNat
  nextWritableAux d s cfg cur (kNumBlocks cfg) cur

/-- The encode-and-write phase of `Persist::Save` (src/persist.h lines
108-122): commit `active_block_n_`, build the block image (`data`, padding
fill, `sequence_n`, then `crc = GetCRC(block_)`), and write it.  On a write
failure, run `Reset` (discarding its result) and return `FAIL_WRITE`. -/
def savePhaseWrite {σ : Type} (d : NVDriver σ) (s : σ) (cfg : Config)
    (data : List Nat) (n seq' : Nat) : Result × PState × σ :=
  let crc := GetCRC cfg (data ++ le16 seq')
  let blk := encodeBlock cfg data seq' crc
  let p1 : PState := { block := blk, active := (n : Int), seq := seq' }
  match d.Write s (BlockLocation cfg n) blk with
  | none => (Result.FAIL_WRITE, (Reset d s cfg p1).2, s)
  | some s' => (Result.SUCCESS, p1, s')

/-- `Persist::Save` (src/persist.h lines 68-123). -/
def Save {σ : Type} (d : NVDriver σ) (s : σ) (cfg : Config) (p : PState)
    (data : List Nat) : Result × PState × σ :=
  if DataIsSame cfg p data then (Result.SUCCESS, p, s)
  else
    let next := NextWritableBlock d s cfg p.active
    if next == -1 then
      if p.active == -1 then
        match d.Erase s 0 (kNumPages cfg * kPageSize cfg) with
        | none => (Result.FAIL_ERASE, p, s)
        | some s' => savePhaseWrite d s' cfg data 0 0
      else
        let currentPage := p.active.toNat / kBlocksPerPage cfg
        let nextPage := (currentPage + 1) % kNumPages cfg
        match d.Erase s (nextPage * kPageSize cfg) (kPageSize cfg) with
        | none => (Result.FAIL_ERASE, p, s)
        | some s' =>
          savePhaseWrite d s' cfg data (nextPage * kBlocksPerPage cfg)
            ((p.seq + 1) % 65536)
    else
      savePhaseWrite d s cfg data next.toNat ((p.seq + 1) % 65536)

/-- The byte image of block `i` on the medium. -/
def readBlock (cfg : Config) (m : Mem) (i : Nat) : List Nat :=
  readBytes m (BlockLocation cfg i) (kBlockSize cfg)

/-! ### Concrete instantiations used by witnesses and counterexamples -/

/-- A small concrete instantiation: a 1-byte record, byte write and erase
granularity, a 20-byte region.  Geometry: `kBlockSize = kPageSize = 5`,
`kBlocksPerPage = 1`, `kNumBlocks = kNumPages = 4`. -/
def cfgSmall : Config := ⟨1, 1, 1, 20, 255, 0⟩

/-- A large instantiation where the `2^15` block cap binds: 4-byte record,
byte granularities, a 320000-byte region (`⌊kSize / kPageSize⌋ = 40000`). -/
def cfgBig : Config := ⟨4, 1, 1, 320000, 255, 0⟩

/-- An erased (virgin) region: every byte is the fill byte `0xFF`. -/
def virginMem : Mem := fun _ => 255

/-- A region with every byte zero: nothing writable, no valid CRC. -/
def zeroMem : Mem := fun _ => 0

/-- An arbitrary initial instance state (the C++ members are uninitialized
before `Init`). -/
def pStart : PState := ⟨[0, 0, 0, 0, 0], -1, 0⟩

/-- A region whose scan state is adversarial: block 0 holds data `[1]` at
sequence 10, block 2 holds stale data `[3]` at sequence `10 + kNumBlocks`
(rejected by the comparator against 10, yet accepted against 11), and
blocks 1 and 3 are erased. -/
def mediaStale : Mem := fun i =>
  (encodeBlock cfgSmall [1] 10 (GetCRC cfgSmall ([1] ++ le16 10)) ++ List.replicate 5 255 ++
    encodeBlock cfgSmall [3] 14 (GetCRC cfgSmall ([3] ++ le16 14)) ++
    List.replicate 5 255).getD i 0

/-- The wrap-around difference `(a - b) mod 2^16` of two 16-bit values. -/
def modDiff (a b : Nat) : Nat := (a + 65536 - b) % 65536

/-- The ideal driver with a failing `Erase` operation (fault injection). -/
def eraseFailNV (cfg : Config) : NVDriver Mem :=
  { idealNV cfg with Erase := fun _ _ _ => none }

/-- A driver-independent description of the state after a successful scan:
either no block is active, or the active index references a block on the
medium whose image is cached, whose stored CRC checks out, and whose
sequence field is the in-memory sequence number. -/
def Consistent (cfg : Config) (p : PState) (M : Mem) : Prop :=
  p.active = -1 ∨
  ∃ n : Nat, n < kNumBlocks cfg ∧ p.active = (n : Int) ∧
    p.block = readBlock cfg M n ∧
    blockCrc cfg p.block = GetCRC cfg p.block ∧
    blockSeq cfg p.block = p.seq

/-- One iteration of `Reset`'s scan loop over the ideal driver, as a pure
state transformer (the driver call is replaced by the bytes it returns). -/
def scanStep (cfg : Config) (M : Mem) (p : PState) (i : Nat) : PState :=
  let bytes := readBlock cfg M i
  if blockCrc cfg bytes = GetCRC cfg bytes then
    if p.active == -1 || acceptSeq (kNumBlocks cfg) (blockSeq cfg bytes) p.seq then
      { block := bytes, active := (i : Int), seq := blockSeq cfg bytes }
    else { p with block := bytes }
  else { p with block := bytes }

end Persist

namespace Persist

/-! ### Geometry lemmas -/

theorem kBlockSize_pos (cfg : Config) : 0 < kBlockSize cfg := by
  unfold kBlockSize; omega

theorem kBlockSize_le_kPageSize (cfg : Config) : kBlockSize cfg ≤ kPageSize cfg := by
  unfold kPageSize; omega

theorem kBlocksPerPage_pos (cfg : Config) : 0 < kBlocksPerPage cfg := by
  unfold kBlocksPerPage
  exact (Nat.one_le_div_iff (kBlockSize_pos cfg)).mpr (kBlockSize_le_kPageSize cfg)

theorem bpp_mul_block_le_page (cfg : Config) :
    kBlocksPerPage cfg * kBlockSize cfg ≤ kPageSize cfg :=
  Nat.div_mul_le_self _ _

theorem sub_div_mul_eq_mod (n b : Nat) : n - n / b * b = n % b := by
  have h := Nat.div_add_mod n b
  exact Nat.sub_eq_of_eq_add (by rw [Nat.mul_comm] at h; omega)

/-- A block lies within its page: its byte range ends no later than the end
of page `n / kBlocksPerPage`. -/
theorem blockLocation_le_page_end (cfg : Config) (n : Nat) :
    BlockLocation cfg n + kBlockSize cfg ≤ (n / kBlocksPerPage cfg + 1) * kPageSize cfg := by
  have hbpp := kBlocksPerPage_pos cfg
  have hoff : (n - n / kBlocksPerPage cfg * kBlocksPerPage cfg) * kBlockSize cfg
      + kBlockSize cfg ≤ kPageSize cfg := by
    rw [sub_div_mul_eq_mod]
    calc n % kBlocksPerPage cfg * kBlockSize cfg + kBlockSize cfg
        = (n % kBlocksPerPage cfg + 1) * kBlockSize cfg := by ring
      _ ≤ kBlocksPerPage cfg * kBlockSize cfg :=
          Nat.mul_le_mul_right _ (Nat.mod_lt n hbpp)
      _ ≤ kPageSize cfg := bpp_mul_block_le_page cfg
  calc BlockLocation cfg n + kBlockSize cfg
      = n / kBlocksPerPage cfg * kPageSize cfg
        + ((n - n / kBlocksPerPage cfg * kBlocksPerPage cfg) * kBlockSize cfg
          + kBlockSize cfg) := by unfold BlockLocation; ring
    _ ≤ n / kBlocksPerPage cfg * kPageSize cfg + kPageSize cfg :=
        Nat.add_le_add_left hoff _
    _ = (n / kBlocksPerPage cfg + 1) * kPageSize cfg := by ring

/-- Every block index lies in a page index below `kNumPages`. -/
theorem page_lt_kNumPages (cfg : Config) {n : Nat} (hn : n < kNumBlocks cfg) :
    n / kBlocksPerPage cfg < kNumPages cfg := by
  have hbpp := kBlocksPerPage_pos cfg
  have h1 : n / kBlocksPerPage cfg ≤ (kNumBlocks cfg - 1) / kBlocksPerPage cfg :=
    Nat.div_le_div_right (by omega)
  have h2 : kNumPages cfg = (kNumBlocks cfg - 1) / kBlocksPerPage cfg + 1 := by
    unfold kNumPages
    have harg : kNumBlocks cfg + kBlocksPerPage cfg - 1
        = (kNumBlocks cfg - 1) + kBlocksPerPage cfg := by omega
    rw [harg, Nat.add_div_right _ hbpp]
  omega

/-- The pages cover at most the NVMem region. -/
theorem pages_le_memSize (cfg : Config) :
    kNumPages cfg * kPageSize cfg ≤ cfg.memSize := by
  have hbpp := kBlocksPerPage_pos cfg
  have h1 : kNumPages cfg ≤ cfg.memSize / kPageSize cfg := by
    have hN : kNumBlocks cfg ≤ cfg.memSize / kPageSize cfg * kBlocksPerPage cfg :=
      Nat.min_le_left _ _
    have h2 : kNumPages cfg
        ≤ (cfg.memSize / kPageSize cfg * kBlocksPerPage cfg + kBlocksPerPage cfg - 1)
          / kBlocksPerPage cfg := by
      unfold kNumPages
      exact Nat.div_le_div_right (by omega)
    have h3 : (cfg.memSize / kPageSize cfg * kBlocksPerPage cfg + kBlocksPerPage cfg - 1)
        / kBlocksPerPage cfg = cfg.memSize / kPageSize cfg := by
      have harg : cfg.memSize / kPageSize cfg * kBlocksPerPage cfg + kBlocksPerPage cfg - 1
          = (kBlocksPerPage cfg - 1) + cfg.memSize / kPageSize cfg * kBlocksPerPage cfg := by
        omega
      rw [harg, Nat.add_mul_div_right _ _ hbpp, Nat.div_eq_of_lt (by omega)]
      omega
    omega
  calc kNumPages cfg * kPageSize cfg
      ≤ cfg.memSize / kPageSize cfg * kPageSize cfg := Nat.mul_le_mul_right _ h1
    _ ≤ cfg.memSize := Nat.div_mul_le_self _ _

/-- Every block's byte range fits inside the NVMem region. -/
theorem blockLocation_fit (cfg : Config) {n : Nat} (hn : n < kNumBlocks cfg) :
    BlockLocation cfg n + kBlockSize cfg ≤ cfg.memSize := by
  have h1 := blockLocation_le_page_end cfg n
  have h2 : (n / kBlocksPerPage cfg + 1) * kPageSize cfg
      ≤ kNumPages cfg * kPageSize cfg :=
    Nat.mul_le_mul_right _ (page_lt_kNumPages cfg hn)
  have h3 := pages_le_memSize cfg
  omega

/-- The first block of any page below `kNumPages` is a block index below
`kNumBlocks`. -/
theorem page_mul_bpp_lt (cfg : Config) (hN : 0 < kNumBlocks cfg) {pg : Nat}
    (hpg : pg < kNumPages cfg) : pg * kBlocksPerPage cfg < kNumBlocks cfg := by
  have hbpp := kBlocksPerPage_pos cfg
  have h2 : kNumPages cfg = (kNumBlocks cfg - 1) / kBlocksPerPage cfg + 1 := by
    unfold kNumPages
    have harg : kNumBlocks cfg + kBlocksPerPage cfg - 1
        = (kNumBlocks cfg - 1) + kBlocksPerPage cfg := by omega
    rw [harg, Nat.add_div_right _ hbpp]
  have h3 : pg ≤ (kNumBlocks cfg - 1) / kBlocksPerPage cfg := by omega
  have h4 : pg * kBlocksPerPage cfg
      ≤ (kNumBlocks cfg - 1) / kBlocksPerPage cfg * kBlocksPerPage cfg :=
    Nat.mul_le_mul_right _ h3
  have h5 : (kNumBlocks cfg - 1) / kBlocksPerPage cfg * kBlocksPerPage cfg
      ≤ kNumBlocks cfg - 1 := Nat.div_mul_le_self _ _
  omega

theorem kNumPages_pos (cfg : Config) (hN : 0 < kNumBlocks cfg) : 0 < kNumPages cfg := by
  have hbpp := kBlocksPerPage_pos cfg
  unfold kNumPages
  exact (Nat.one_le_div_iff hbpp).mpr (by omega)

end Persist

namespace Persist

/-! ### Byte-store lemmas -/

theorem readBytes_length (m : Mem) (loc n : Nat) : (readBytes m loc n).length = n := by
  simp [readBytes]

theorem readBytes_updateBytes_self (m : Mem) (loc : Nat) (bs : List Nat) :
    readBytes (updateBytes m loc bs) loc bs.length = bs := by
  apply List.ext_getElem
  · simp [readBytes]
  · intro k h1 h2
    have hk : k < bs.length := by simpa [readBytes] using h1
    simp only [readBytes, List.getElem_map, List.getElem_range, updateBytes]
    rw [if_pos (by omega)]
    simp [List.getD_eq_getElem _ _ (by omega : loc + k - loc < bs.length), hk]

theorem readBytes_updateBytes_disjoint (m : Mem) (loc a n : Nat) (bs : List Nat)
    (h : a + n ≤ loc ∨ loc + bs.length ≤ a) :
    readBytes (updateBytes m loc bs) a n = readBytes m a n := by
  unfold readBytes
  apply List.map_congr_left
  intro k hk
  have hk' : k < n := List.mem_range.mp hk
  unfold updateBytes
  rw [if_neg (by omega)]

end Persist

namespace Persist

/-! ### C2 — the recovery comparator -/

/-- C2 counterexample: for the `cfgSmall` instantiation (`kNumBlocks = 4`),
the candidate `a = 14` against best `b = 10` is rejected by the code's
acceptance predicate although `(a - b) mod 2^16 = 4` lies in the spec's
interval `(0, kNumBlocks]`, so the claimed equivalence fails. -/
theorem acceptSeq_spec_interval_cex :
    ¬ (acceptSeq (kNumBlocks cfgSmall) 14 10 = true ↔
        (0 < modDiff 14 10 ∧ modDiff 14 10 ≤ kNumBlocks cfgSmall)) := by
  decide

/-- C2 (amended): for 16-bit values `a`, `b`, the scanner's acceptance
predicate holds iff `a > b` and `(a - b) mod 2^16` lies in the half-open
interval `(0, kNumBlocks)`, or `a < b` and `(a - b) mod 2^16` lies in
`(0, 2^16 - kNumBlocks]`. -/
theorem acceptSeq_iff_modDiff (cfg : Config) (a b : Nat)
    (ha : a < 65536) (hb : b < 65536) :
    acceptSeq (kNumBlocks cfg) a b = true ↔
      ((b < a ∧ 0 < modDiff a b ∧ modDiff a b < kNumBlocks cfg) ∨
       (a < b ∧ 0 < modDiff a b ∧ modDiff a b ≤ 65536 - kNumBlocks cfg)) := by
  unfold acceptSeq modDiff
  simp only [Bool.or_eq_true, Bool.and_eq_true, decide_eq_true_eq]
  omega

/-- Witness for `acceptSeq_iff_modDiff` at `a = 14`, `b = 10` on `cfgSmall`. -/
theorem acceptSeq_iff_modDiff_witness :
    (14 : Nat) < 65536 ∧ (10 : Nat) < 65536 ∧
    (acceptSeq (kNumBlocks cfgSmall) 14 10 = true ↔
      ((10 < 14 ∧ 0 < modDiff 14 10 ∧ modDiff 14 10 < kNumBlocks cfgSmall) ∨
       (14 < 10 ∧ 0 < modDiff 14 10 ∧ modDiff 14 10 ≤ 65536 - kNumBlocks cfgSmall))) :=
  ⟨by decide, by decide, acceptSeq_iff_modDiff cfgSmall 14 10 (by decide) (by decide)⟩

/-- The comparator is antisymmetric: if `a` is accepted against `b` then `b`
is not accepted against `a`. -/
theorem acceptSeq_antisymm {numBlocks a b : Nat} (h : acceptSeq numBlocks a b = true) :
    acceptSeq numBlocks b a = false := by
  unfold acceptSeq at h ⊢
  simp only [Bool.or_eq_true, Bool.and_eq_true, decide_eq_true_eq] at h
  simp only [Bool.or_eq_false_iff, Bool.and_eq_false_iff, decide_eq_false_iff_not]
  omega

/-! ### C8 — geometry constants -/

theorem ceil_mul_div (q b : Nat) (hb : 0 < b) : (q * b + b - 1) / b = q := by
  have harg : q * b + b - 1 = (b - 1) + q * b := by omega
  rw [harg, Nat.add_mul_div_right _ _ hb, Nat.div_eq_of_lt (by omega)]
  omega

/-- C8 counterexample: on `cfgBig` the cap binds; the code computes
`kNumPages = 32768` whereas the claim's formula `⌊kSize / kPageSize⌋`
gives `40000`. -/
theorem geometry_cap_cex :
    kNumPages cfgBig = 32768 ∧ cfgBig.memSize / kPageSize cfgBig = 40000 ∧
    kNumPages cfgBig ≠ cfgBig.memSize / kPageSize cfgBig := by
  decide

/-- C8 (amended): `kNumBlocks` is `⌊kSize / kPageSize⌋ · kBlocksPerPage`
capped at `2^15`; whenever the cap does not bind, the claimed formulas hold:
`kNumPages = ⌊kSize / kPageSize⌋` and `kNumBlocks = kNumPages · kBlocksPerPage`.
(When the cap binds, `kNumPages` is recomputed as `⌈2^15 / kBlocksPerPage⌉`.) -/
theorem geometry_constants_uncapped (cfg : Config)
    (hcap : cfg.memSize / kPageSize cfg * kBlocksPerPage cfg ≤ 2 ^ 15) :
    kNumBlocks cfg = min (cfg.memSize / kPageSize cfg * kBlocksPerPage cfg) (2 ^ 15) ∧
    kNumPages cfg = cfg.memSize / kPageSize cfg ∧
    kNumBlocks cfg = kNumPages cfg * kBlocksPerPage cfg := by
  have hbpp := kBlocksPerPage_pos cfg
  have hN : kNumBlocks cfg = cfg.memSize / kPageSize cfg * kBlocksPerPage cfg := by
    unfold kNumBlocks
    omega
  have hP : kNumPages cfg = cfg.memSize / kPageSize cfg := by
    unfold kNumPages
    rw [hN, ceil_mul_div _ _ hbpp]
  exact ⟨by unfold kNumBlocks; norm_num, hP, by rw [hN, hP]⟩

/-- Witness for `geometry_constants_uncapped` on `cfgSmall`. -/
theorem geometry_constants_uncapped_witness :
    cfgSmall.memSize / kPageSize cfgSmall * kBlocksPerPage cfgSmall ≤ 2 ^ 15 ∧
    (kNumBlocks cfgSmall
        = min (cfgSmall.memSize / kPageSize cfgSmall * kBlocksPerPage cfgSmall) (2 ^ 15) ∧
      kNumPages cfgSmall = cfgSmall.memSize / kPageSize cfgSmall ∧
      kNumBlocks cfgSmall = kNumPages cfgSmall * kBlocksPerPage cfgSmall) :=
  ⟨by decide, geometry_constants_uncapped cfgSmall (by decide)⟩

end Persist

namespace Persist

/-! ### C4 — the next-page erase never touches the active block -/

/-- C4: when a block `n` is active and the region has at least two pages,
the page erased by `Save`'s rotation step — the page after `n`'s page,
modulo `kNumPages` — occupies a byte range disjoint from block `n`'s byte
range, and filling that page (the effect of an ideal `Erase`) leaves the
bytes of block `n` on the medium unchanged. -/
theorem erase_next_page_preserves_active_block (cfg : Config) (M : Mem) (n : Nat)
    (hp : 2 ≤ kNumPages cfg) (hn : n < kNumBlocks cfg) :
    ((n / kBlocksPerPage cfg + 1) % kNumPages cfg * kPageSize cfg + kPageSize cfg
        ≤ BlockLocation cfg n ∨
      BlockLocation cfg n + kBlockSize cfg
        ≤ (n / kBlocksPerPage cfg + 1) % kNumPages cfg * kPageSize cfg) ∧
    readBlock cfg
      (updateBytes M ((n / kBlocksPerPage cfg + 1) % kNumPages cfg * kPageSize cfg)
        (List.replicate (kPageSize cfg) cfg.fillByte)) n
      = readBlock cfg M n := by
  have hbpp := kBlocksPerPage_pos cfg
  have hcp : n / kBlocksPerPage cfg < kNumPages cfg := page_lt_kNumPages cfg hn
  have hinpage := blockLocation_le_page_end cfg n
  have hlow : n / kBlocksPerPage cfg * kPageSize cfg ≤ BlockLocation cfg n := by
    simp only [BlockLocation]
    exact Nat.le_add_right _ _
  have hdisj : (n / kBlocksPerPage cfg + 1) % kNumPages cfg * kPageSize cfg
        + kPageSize cfg ≤ BlockLocation cfg n ∨
      BlockLocation cfg n + kBlockSize cfg
        ≤ (n / kBlocksPerPage cfg + 1) % kNumPages cfg * kPageSize cfg := by
    set cp := n / kBlocksPerPage cfg with hcpdef
    set np := (cp + 1) % kNumPages cfg with hnpdef
    rcases Nat.lt_or_ge (cp + 1) (kNumPages cfg) with hlt | hge
    · have hnp : np = cp + 1 := by rw [hnpdef, Nat.mod_eq_of_lt hlt]
      right
      calc BlockLocation cfg n + kBlockSize cfg ≤ (cp + 1) * kPageSize cfg := hinpage
        _ = np * kPageSize cfg := by rw [hnp]
    · have hcp1 : cp + 1 = kNumPages cfg := by omega
      have hnp : np = 0 := by rw [hnpdef, hcp1, Nat.mod_self]
      left
      have hcp2 : 1 ≤ cp := by omega
      have : np * kPageSize cfg + kPageSize cfg ≤ cp * kPageSize cfg := by
        rw [hnp]
        calc 0 * kPageSize cfg + kPageSize cfg = 1 * kPageSize cfg := by ring
          _ ≤ cp * kPageSize cfg := Nat.mul_le_mul_right _ hcp2
      omega
  refine ⟨hdisj, ?_⟩
  unfold readBlock
  apply readBytes_updateBytes_disjoint
  rw [List.length_replicate]
  rcases hdisj with h | h
  · exact Or.inr h
  · exact Or.inl h

/-- Witness for `erase_next_page_preserves_active_block` on `cfgSmall` with
active block 0 and a constant byte store. -/
theorem erase_next_page_preserves_active_block_witness :
    (2 ≤ kNumPages cfgSmall ∧ 0 < kNumBlocks cfgSmall) ∧
    (((0 / kBlocksPerPage cfgSmall + 1) % kNumPages cfgSmall * kPageSize cfgSmall
          + kPageSize cfgSmall ≤ BlockLocation cfgSmall 0 ∨
        BlockLocation cfgSmall 0 + kBlockSize cfgSmall
          ≤ (0 / kBlocksPerPage cfgSmall + 1) % kNumPages cfgSmall * kPageSize cfgSmall) ∧
      readBlock cfgSmall
        (updateBytes (fun _ => 7)
          ((0 / kBlocksPerPage cfgSmall + 1) % kNumPages cfgSmall * kPageSize cfgSmall)
          (List.replicate (kPageSize cfgSmall) cfgSmall.fillByte)) 0
        = readBlock cfgSmall (fun _ => 7) 0) :=
  ⟨⟨by decide, by decide⟩,
    erase_next_page_preserves_active_block cfgSmall (fun _ => 7) 0 (by decide) (by decide)⟩

end Persist

namespace Persist

/-! ### C5 — Save's result taxonomy -/

/-- C5: for every driver (including drivers whose operations fail
arbitrarily, so in particular when the `Reset` triggered by a failed
`Write` hits a read failure), `Save` returns only `SUCCESS`, `FAIL_ERASE`
or `FAIL_WRITE` — never `FAIL_READ` or `FAIL_NO_DATA`. -/
theorem save_returns_success_erase_or_write {σ : Type} (d : NVDriver σ) (s : σ)
    (cfg : Config) (p : PState) (data : List Nat) :
    (Save d s cfg p data).1 = Result.SUCCESS ∨
    (Save d s cfg p data).1 = Result.FAIL_ERASE ∨
    (Save d s cfg p data).1 = Result.FAIL_WRITE := by
  unfold Save savePhaseWrite
  dsimp only
  repeat' split
  all_goals simp

/-! ### C10 — Save is atomic on erase failure -/

/-- The short-circuit of `Save`: when a block is active and its cached data
equals the argument, `Save` returns `SUCCESS` with the instance state and
the driver state untouched — for any driver. -/
theorem save_of_dataIsSame {σ : Type} (d : NVDriver σ) (s : σ) (cfg : Config)
    (p : PState) (data : List Nat) (h : DataIsSame cfg p data = true) :
    Save d s cfg p data = (Result.SUCCESS, p, s) := by
  unfold Save
  rw [if_pos h]

/-- C10: if `Save` returns `FAIL_ERASE` then the in-memory instance state
(`active_block_n_`, `sequence_` and the cached block) is exactly as before
the call, and no NVMem `Write` (and no successful `Erase`) was issued:
the counting driver's state is unchanged. -/
theorem save_fail_erase_unchanged {σ : Type} (d : NVDriver σ) (s : σ) (w e : Nat)
    (cfg : Config) (p : PState) (data : List Nat)
    (h : (Save (countingDriver d) (s, w, e) cfg p data).1 = Result.FAIL_ERASE) :
    (Save (countingDriver d) (s, w, e) cfg p data).2.1 = p ∧
    (Save (countingDriver d) (s, w, e) cfg p data).2.2 = (s, w, e) := by
  unfold Save savePhaseWrite countingDriver at h ⊢
  dsimp only at h ⊢
  repeat' split at h
  all_goals simp_all

/-- Witness for `save_fail_erase_unchanged`: an erase-failure driver over a
full region (no writable block, no valid CRC). -/
theorem save_fail_erase_unchanged_witness :
    (Save (countingDriver (eraseFailNV cfgSmall)) (zeroMem, 0, 0) cfgSmall pStart [2]).1
        = Result.FAIL_ERASE ∧
    ((Save (countingDriver (eraseFailNV cfgSmall)) (zeroMem, 0, 0) cfgSmall pStart [2]).2.1
        = pStart ∧
      (Save (countingDriver (eraseFailNV cfgSmall)) (zeroMem, 0, 0) cfgSmall pStart [2]).2.2
        = (zeroMem, 0, 0)) :=
  ⟨by decide,
    save_fail_erase_unchanged (eraseFailNV cfgSmall) zeroMem 0 0 cfgSmall pStart [2]
      (by decide)⟩

end Persist

namespace Persist

theorem resetScanList_cons (cfg : Config) (M : Mem) (i : Nat) (rest : List Nat)
    (p : PState) (hi : BlockLocation cfg i + kBlockSize cfg ≤ cfg.memSize) :
    resetScanList (idealNV cfg) M cfg (i :: rest) p
      = resetScanList (idealNV cfg) M cfg rest (scanStep cfg M p i) := by
  simp only [resetScanList, idealNV, scanStep, readBlock]
  rw [if_pos hi]
  dsimp only
  by_cases hcrc : blockCrc cfg (readBytes M (BlockLocation cfg i) (kBlockSize cfg))
      = GetCRC cfg (readBytes M (BlockLocation cfg i) (kBlockSize cfg))
  · rw [if_pos hcrc, if_pos hcrc]
    by_cases hacc : (p.active == -1
        || acceptSeq (kNumBlocks cfg)
            (blockSeq cfg (readBytes M (BlockLocation cfg i) (kBlockSize cfg))) p.seq) = true
    · rw [if_pos hacc, if_pos hacc]
    · rw [if_neg hacc, if_neg hacc]
  · rw [if_neg hcrc, if_neg hcrc]

theorem resetScanList_ideal_eq (cfg : Config) (M : Mem) :
    ∀ (l : List Nat) (p : PState),
      (∀ i ∈ l, i < kNumBlocks cfg) →
      resetScanList (idealNV cfg) M cfg l p
        = (Result.SUCCESS, l.foldl (scanStep cfg M) p) := by
  intro l
  induction l with
  | nil => intro p _; rfl
  | cons i rest ih =>
    intro p h
    have hi : i < kNumBlocks cfg := h i (by simp)
    rw [resetScanList_cons cfg M i rest p (blockLocation_fit cfg hi), List.foldl_cons,
      ih _ (fun j hj => h j (by simp [hj]))]

end Persist

namespace Persist

theorem scanFold_inv (cfg : Config) (M : Mem) :
    ∀ (l : List Nat) (p : PState),
      (∀ i ∈ l, i < kNumBlocks cfg) →
      (p.active = -1 ∨ ∃ j : Nat, j < kNumBlocks cfg ∧ p.active = (j : Int) ∧
        blockCrc cfg (readBlock cfg M j) = GetCRC cfg (readBlock cfg M j) ∧
        blockSeq cfg (readBlock cfg M j) = p.seq) →
      ((l.foldl (scanStep cfg M) p).active = -1 ∨
        ∃ j : Nat, j < kNumBlocks cfg ∧ (l.foldl (scanStep cfg M) p).active = (j : Int) ∧
          blockCrc cfg (readBlock cfg M j) = GetCRC cfg (readBlock cfg M j) ∧
          blockSeq cfg (readBlock cfg M j) = (l.foldl (scanStep cfg M) p).seq) := by
  intro l
  induction l with
  | nil => intro p _ hp; exact hp
  | cons i rest ih =>
    intro p h hp
    rw [List.foldl_cons]
    apply ih _ (fun j hj => h j (by simp [hj]))
    unfold scanStep
    dsimp only
    by_cases hcrc : blockCrc cfg (readBlock cfg M i) = GetCRC cfg (readBlock cfg M i)
    · rw [if_pos hcrc]
      by_cases hacc : (p.active == -1
          || acceptSeq (kNumBlocks cfg) (blockSeq cfg (readBlock cfg M i)) p.seq) = true
      · rw [if_pos hacc]
        exact Or.inr ⟨i, h i (by simp), rfl, hcrc, rfl⟩
      · rw [if_neg hacc]
        exact hp
    · rw [if_neg hcrc]
      exact hp

/-- C3: whenever `Init`/`Reset` over the ideal driver returns `SUCCESS`,
either no block is active, or the active index points at a block whose
stored CRC equals the freshly recomputed version-seeded CRC over
`(data, sequence_n)` and whose sequence field equals the in-memory
sequence, with the block image cached. -/
theorem reset_active_block_invariant (cfg : Config) (M : Mem) (p p' : PState)
    (h : Reset (idealNV cfg) M cfg p = (Result.SUCCESS, p')) :
    Consistent cfg p' M := by
  unfold Reset at h
  rw [resetScanList_ideal_eq cfg M _ _ (fun i hi => List.mem_range.mp hi)] at h
  set pScan := (List.range (kNumBlocks cfg)).foldl (scanStep cfg M)
      { p with seq := 0, active := -1 } with hps
  have hinv := scanFold_inv cfg M (List.range (kNumBlocks cfg))
      { p with seq := 0, active := -1 } (fun i hi => List.mem_range.mp hi) (Or.inl rfl)
  rw [← hps] at hinv
  dsimp only at h
  by_cases hne : (pScan.active == -1) = true
  · rw [if_pos hne] at h
    rw [Prod.mk.injEq] at h
    obtain ⟨-, h⟩ := h
    subst h
    exact Or.inl (by simpa using hne)
  · rw [if_neg hne] at h
    rcases hinv with hinv | ⟨j, hj, hja, hjc, hjs⟩
    · exact absurd (by simp [hinv]) hne
    · have htn : pScan.active.toNat = j := by rw [hja]; simp
      have hfit := blockLocation_fit cfg hj
      rw [htn] at h
      have hread : (idealNV cfg).Read M (BlockLocation cfg j) (kBlockSize cfg)
          = some (readBlock cfg M j) := by
        simp [idealNV, hfit, readBlock]
      rw [hread] at h
      rw [Prod.mk.injEq] at h
      obtain ⟨-, h⟩ := h
      subst h
      exact Or.inr ⟨j, hj, hja, rfl, hjc, by simpa using hjs⟩

/-- Witness for `reset_active_block_invariant`: the virgin `cfgSmall` region. -/
theorem reset_active_block_invariant_witness :
    Reset (idealNV cfgSmall) virginMem cfgSmall pStart
        = (Result.SUCCESS, ⟨[255, 255, 255, 255, 255], -1, 0⟩) ∧
    Consistent cfgSmall ⟨[255, 255, 255, 255, 255], -1, 0⟩ virginMem :=
  ⟨by decide,
    reset_active_block_invariant cfgSmall virginMem pStart _ (by decide)⟩

end Persist

namespace Persist

theorem scanFold_no_valid (cfg : Config) (M : Mem)
    (hno : ∀ i, i < kNumBlocks cfg →
      blockCrc cfg (readBlock cfg M i) ≠ GetCRC cfg (readBlock cfg M i)) :
    ∀ (l : List Nat) (p : PState), (∀ i ∈ l, i < kNumBlocks cfg) →
      p.active = -1 → (l.foldl (scanStep cfg M) p).active = -1 := by
  intro l
  induction l with
  | nil => intro p _ hp; exact hp
  | cons i rest ih =>
    intro p h hp
    rw [List.foldl_cons]
    apply ih _ (fun j hj => h j (by simp [hj]))
    unfold scanStep
    dsimp only
    rw [if_neg (hno i (h i (by simp)))]
    exact hp

/-- C6: when no block on the medium passes CRC verification (for example a
virgin region), `Init`/`Reset` still returns `SUCCESS` with no active
block, and a subsequent `Load` returns `FAIL_NO_DATA`, leaving the output
argument untouched (`Load` takes no driver, so it performs no NVMem
access). -/
theorem reset_no_valid_load_no_data (cfg : Config) (M : Mem) (p : PState)
    (out : List Nat)
    (hno : ∀ i, i < kNumBlocks cfg →
      blockCrc cfg (readBlock cfg M i) ≠ GetCRC cfg (readBlock cfg M i)) :
    (Reset (idealNV cfg) M cfg p).1 = Result.SUCCESS ∧
    (Reset (idealNV cfg) M cfg p).2.active = -1 ∧
    Load cfg (Reset (idealNV cfg) M cfg p).2 out = (Result.FAIL_NO_DATA, out) := by
  unfold Reset
  rw [resetScanList_ideal_eq cfg M _ _ (fun i hi => List.mem_range.mp hi)]
  have hact := scanFold_no_valid cfg M hno (List.range (kNumBlocks cfg))
    { p with seq := 0, active := -1 } (fun i hi => List.mem_range.mp hi) rfl
  dsimp only
  rw [if_pos (by simp [hact])]
  refine ⟨rfl, hact, ?_⟩
  unfold Load
  rw [if_pos (by simp [hact])]

/-- Witness for `reset_no_valid_load_no_data`: the virgin `cfgSmall`
region. -/
theorem reset_no_valid_load_no_data_witness :
    (∀ i, i < kNumBlocks cfgSmall →
      blockCrc cfgSmall (readBlock cfgSmall virginMem i)
        ≠ GetCRC cfgSmall (readBlock cfgSmall virginMem i)) ∧
    ((Reset (idealNV cfgSmall) virginMem cfgSmall pStart).1 = Result.SUCCESS ∧
      (Reset (idealNV cfgSmall) virginMem cfgSmall pStart).2.active = -1 ∧
      Load cfgSmall (Reset (idealNV cfgSmall) virginMem cfgSmall pStart).2 [9]
        = (Result.FAIL_NO_DATA, [9])) :=
  ⟨by decide, reset_no_valid_load_no_data cfgSmall virginMem pStart [9] (by decide)⟩

end Persist

namespace Persist

theorem scanFold_sticky (cfg : Config) (M : Mem) (m : Nat)
    (hwin : ∀ i, i < kNumBlocks cfg → i ≠ m →
      blockCrc cfg (readBlock cfg M i) = GetCRC cfg (readBlock cfg M i) →
      acceptSeq (kNumBlocks cfg) (blockSeq cfg (readBlock cfg M m))
        (blockSeq cfg (readBlock cfg M i)) = true) :
    ∀ (l : List Nat) (p : PState), (∀ i ∈ l, i < kNumBlocks cfg) → m ∉ l →
      p.active = (m : Int) → p.seq = blockSeq cfg (readBlock cfg M m) →
      (l.foldl (scanStep cfg M) p).active = (m : Int) ∧
      (l.foldl (scanStep cfg M) p).seq = blockSeq cfg (readBlock cfg M m) := by
  intro l
  induction l with
  | nil => intro p _ _ ha hs; exact ⟨ha, hs⟩
  | cons i rest ih =>
    intro p h hm ha hs
    have him : i ≠ m := fun hcon => hm (hcon ▸ List.mem_cons_self i rest)
    rw [List.foldl_cons]
    have hstep : (scanStep cfg M p i).active = p.active ∧ (scanStep cfg M p i).seq = p.seq := by
      unfold scanStep
      dsimp only
      by_cases hcrc : blockCrc cfg (readBlock cfg M i) = GetCRC cfg (readBlock cfg M i)
      · rw [if_pos hcrc]
        have hrej : acceptSeq (kNumBlocks cfg) (blockSeq cfg (readBlock cfg M i)) p.seq
            = false := by
          rw [hs]
          exact acceptSeq_antisymm (hwin i (h i (by simp)) him hcrc)
        have hne : (p.active == -1) = false := by
          rw [ha]; simp
        rw [if_neg (by rw [hrej, hne]; simp)]
        exact ⟨rfl, rfl⟩
      · rw [if_neg hcrc]
        exact ⟨rfl, rfl⟩
    exact ih _ (fun j hj => h j (by simp [hj])) (fun hc => hm (by simp [hc]))
      (hstep.1.trans ha) (hstep.2.trans hs)

theorem scanFold_pre (cfg : Config) (M : Mem) (m : Nat) :
    ∀ (l : List Nat) (p : PState), (∀ i ∈ l, i < kNumBlocks cfg) → m ∉ l →
      (p.active = -1 ∨ ∃ j : Nat, j < kNumBlocks cfg ∧ j ≠ m ∧ p.active = (j : Int) ∧
        blockCrc cfg (readBlock cfg M j) = GetCRC cfg (readBlock cfg M j) ∧
        blockSeq cfg (readBlock cfg M j) = p.seq) →
      ((l.foldl (scanStep cfg M) p).active = -1 ∨
        ∃ j : Nat, j < kNumBlocks cfg ∧ j ≠ m ∧
          (l.foldl (scanStep cfg M) p).active = (j : Int) ∧
          blockCrc cfg (readBlock cfg M j) = GetCRC cfg (readBlock cfg M j) ∧
          blockSeq cfg (readBlock cfg M j) = (l.foldl (scanStep cfg M) p).seq) := by
  intro l
  induction l with
  | nil => intro p _ _ hp; exact hp
  | cons i rest ih =>
    intro p h hm' hp
    have him : i ≠ m := fun hcon => hm' (hcon ▸ List.mem_cons_self i rest)
    rw [List.foldl_cons]
    apply ih _ (fun j hj => h j (by simp [hj])) (fun hc => hm' (by simp [hc]))
    unfold scanStep
    dsimp only
    by_cases hcrc : blockCrc cfg (readBlock cfg M i) = GetCRC cfg (readBlock cfg M i)
    · rw [if_pos hcrc]
      by_cases hacc : (p.active == -1
          || acceptSeq (kNumBlocks cfg) (blockSeq cfg (readBlock cfg M i)) p.seq) = true
      · rw [if_pos hacc]
        exact Or.inr ⟨i, h i (by simp), him, rfl, hcrc, rfl⟩
      · rw [if_neg hacc]
        exact hp
    · rw [if_neg hcrc]
      exact hp

/-- The recovery scan finds block `m` whenever `m` holds a valid CRC and its
sequence number is accepted against every other valid block's sequence
number. -/
theorem reset_finds_newest (cfg : Config) (M : Mem) (m : Nat) (p : PState)
    (hm : m < kNumBlocks cfg)
    (hvalid : blockCrc cfg (readBlock cfg M m) = GetCRC cfg (readBlock cfg M m))
    (hwin : ∀ i, i < kNumBlocks cfg → i ≠ m →
      blockCrc cfg (readBlock cfg M i) = GetCRC cfg (readBlock cfg M i) →
      acceptSeq (kNumBlocks cfg) (blockSeq cfg (readBlock cfg M m))
        (blockSeq cfg (readBlock cfg M i)) = true) :
    Reset (idealNV cfg) M cfg p
      = (Result.SUCCESS,
          ⟨readBlock cfg M m, (m : Int), blockSeq cfg (readBlock cfg M m)⟩) := by
  obtain ⟨l1, l2, hsplit⟩ := List.append_of_mem (List.mem_range.mpr hm)
  have hnd : (List.range (kNumBlocks cfg)).Nodup := List.nodup_range _
  rw [hsplit] at hnd
  rw [List.nodup_append] at hnd
  obtain ⟨hnd1, hnd2, hdisj⟩ := hnd
  have hm2 : m ∉ l2 := (List.nodup_cons.mp hnd2).1
  have hm1 : m ∉ l1 := fun hc => hdisj hc (List.mem_cons_self m l2)
  have hsub : ∀ i ∈ List.range (kNumBlocks cfg), i < kNumBlocks cfg :=
    fun i hi => List.mem_range.mp hi
  have hsub1 : ∀ i ∈ l1, i < kNumBlocks cfg := fun i hi =>
    hsub i (hsplit ▸ List.mem_append_left _ hi)
  have hsub2 : ∀ i ∈ l2, i < kNumBlocks cfg := fun i hi =>
    hsub i (hsplit ▸ List.mem_append_right _ (List.mem_cons_of_mem m hi))
  unfold Reset
  rw [resetScanList_ideal_eq cfg M _ _ hsub, hsplit]
  set p0 : PState := { p with seq := 0, active := -1 } with hp0
  rw [List.foldl_append, List.foldl_cons]
  have hpre := scanFold_pre cfg M m l1 p0 hsub1 hm1 (Or.inl rfl)
  set p1 := l1.foldl (scanStep cfg M) p0 with hp1
  have hacc : scanStep cfg M p1 m
      = ⟨readBlock cfg M m, (m : Int), blockSeq cfg (readBlock cfg M m)⟩ := by
    unfold scanStep
    dsimp only
    rw [if_pos hvalid]
    rcases hpre with hp | ⟨j, hj, hjm, hja, hjc, hjs⟩
    · rw [if_pos (by rw [hp]; simp)]
    · rw [if_pos ?hcond]
      case hcond =>
        have := hwin j hj hjm hjc
        rw [hjs] at this
        rw [this]
        simp
  rw [hacc]
  have hstick := scanFold_sticky cfg M m hwin l2
      ⟨readBlock cfg M m, (m : Int), blockSeq cfg (readBlock cfg M m)⟩
      hsub2 hm2 rfl rfl
  set p2 := l2.foldl (scanStep cfg M)
      ⟨readBlock cfg M m, (m : Int), blockSeq cfg (readBlock cfg M m)⟩ with hp2
  dsimp only
  rw [if_neg (by rw [hstick.1]; simp)]
  have htn : p2.active.toNat = m := by rw [hstick.1]; simp
  rw [htn]
  have hread : (idealNV cfg).Read M (BlockLocation cfg m) (kBlockSize cfg)
      = some (readBlock cfg M m) := by
    simp [idealNV, blockLocation_fit cfg hm, readBlock]
  rw [hread]
  have : p2 = { p2 with block := p2.block } := rfl
  rw [Prod.mk.injEq]
  refine ⟨rfl, ?_⟩
  cases hstick' : p2 with
  | mk blk act sq =>
    have h1 : act = (m : Int) := by rw [← hstick.1, hstick']
    have h2 : sq = blockSeq cfg (readBlock cfg M m) := by rw [← hstick.2, hstick']
    simp [h1, h2]

end Persist

namespace Persist

theorem processByte_lt (c b : Nat) : Crc16.ProcessByte c b < 65536 :=
  Nat.mod_lt _ (by norm_num)

theorem process_lt_of_lt : ∀ (bs : List Nat) (c : Nat), c < 65536 →
    Crc16.Process c bs < 65536 := by
  intro bs
  induction bs with
  | nil => intro c hc; exact hc
  | cons b rest ih =>
    intro c _
    exact ih (Crc16.ProcessByte c b) (processByte_lt c b)

theorem getCRC_lt (cfg : Config) (bs : List Nat) (hbs : bs ≠ []) :
    GetCRC cfg bs < 65536 := by
  unfold GetCRC
  rcases hbt : bs.take (cfg.dataSize + 2) with _ | ⟨b, rest⟩
  · rw [List.take_eq_nil_iff] at hbt
    rcases hbt with h | h
    · omega
    · exact absurd h hbs
  · show Crc16.Process _ (b :: rest) < 65536
    rw [show Crc16.Process (crcSeedOf cfg.version) (b :: rest)
        = Crc16.Process (Crc16.ProcessByte (crcSeedOf cfg.version) b) rest from rfl]
    exact process_lt_of_lt rest _ (processByte_lt _ b)

theorem encodeBlock_length (cfg : Config) (data : List Nat) (seq crc : Nat)
    (hlen : data.length = cfg.dataSize) :
    (encodeBlock cfg data seq crc).length = kBlockSize cfg := by
  simp [encodeBlock, le16, kBlockSize, hlen]
  omega

theorem encodeBlock_take_data (cfg : Config) (data : List Nat) (seq crc : Nat)
    (hlen : data.length = cfg.dataSize) :
    (encodeBlock cfg data seq crc).take cfg.dataSize = data := by
  unfold encodeBlock
  rw [List.append_assoc, List.append_assoc, ← hlen, List.take_left]

theorem encodeBlock_take_body (cfg : Config) (data : List Nat) (seq crc : Nat)
    (hlen : data.length = cfg.dataSize) :
    (encodeBlock cfg data seq crc).take (cfg.dataSize + 2) = data ++ le16 seq := by
  unfold encodeBlock
  rw [List.append_assoc (data ++ le16 seq)]
  have h : cfg.dataSize + 2 = (data ++ le16 seq).length := by
    simp [le16, hlen]
  rw [h, List.take_left]

theorem blockSeq_encodeBlock (cfg : Config) (data : List Nat) (seq crc : Nat)
    (hlen : data.length = cfg.dataSize) (hs : seq < 65536) :
    blockSeq cfg (encodeBlock cfg data seq crc) = seq := by
  unfold blockSeq encodeBlock
  rw [List.append_assoc, List.append_assoc]
  rw [List.getD_append_right data _ 0 cfg.dataSize (by omega),
    List.getD_append_right data _ 0 (cfg.dataSize + 1) (by omega), hlen]
  have h0 : cfg.dataSize - cfg.dataSize = 0 := by omega
  have h1 : cfg.dataSize + 1 - cfg.dataSize = 1 := by omega
  rw [h0, h1]
  rw [List.getD_append _ _ _ 0 (by simp [le16]), List.getD_append _ _ _ 1 (by simp [le16])]
  simp [le16]
  omega

theorem blockCrc_encodeBlock (cfg : Config) (data : List Nat) (seq crc : Nat)
    (hlen : data.length = cfg.dataSize) (hc : crc < 65536) :
    blockCrc cfg (encodeBlock cfg data seq crc) = crc := by
  unfold blockCrc encodeBlock
  rw [List.append_assoc, List.append_assoc]
  rw [List.getD_append_right data _ 0 (cfg.dataSize + 2) (by omega),
    List.getD_append_right data _ 0 (cfg.dataSize + 3) (by omega), hlen]
  have h2 : cfg.dataSize + 2 - cfg.dataSize = 2 := by omega
  have h3 : cfg.dataSize + 3 - cfg.dataSize = 3 := by omega
  rw [h2, h3]
  rw [List.getD_append_right (le16 seq) _ 0 2 (by simp [le16]),
    List.getD_append_right (le16 seq) _ 0 3 (by simp [le16])]
  have e0 : 2 - (le16 seq).length = 0 := by simp [le16]
  have e1 : 3 - (le16 seq).length = 1 := by simp [le16]
  rw [e0, e1]
  rw [List.getD_append _ _ _ 0 (by simp [le16]), List.getD_append _ _ _ 1 (by simp [le16])]
  simp [le16]
  omega

theorem getCRC_encodeBlock (cfg : Config) (data : List Nat) (seq crc : Nat)
    (hlen : data.length = cfg.dataSize) :
    GetCRC cfg (encodeBlock cfg data seq crc) = GetCRC cfg (data ++ le16 seq) := by
  unfold GetCRC
  rw [encodeBlock_take_body cfg data seq crc hlen,
    List.take_of_length_le (by simp [le16, hlen])]

end Persist

namespace Persist

theorem nextWritableAux_cases (cfg : Config) (d : NVDriver Mem) (s : Mem) (current : Nat) :
    ∀ (fuel next : Nat), (next < kNumBlocks cfg ∨ 0 < fuel) → 0 < kNumBlocks cfg →
      nextWritableAux d s cfg current fuel next = -1 ∨
      ∃ k : Nat, k < kNumBlocks cfg ∧ nextWritableAux d s cfg current fuel next = (k : Int) := by
  intro fuel
  induction fuel with
  | zero =>
    intro next hnext hN
    unfold nextWritableAux
    by_cases h : (next == current) = true
    · rw [if_pos h]; exact Or.inl rfl
    · rw [if_neg h]
      exact Or.inr ⟨next, by omega, rfl⟩
  | succ f ih =>
    intro next _ hN
    unfold nextWritableAux
    dsimp only
    by_cases hw : d.Writable s (BlockLocation cfg ((next + 1) % kNumBlocks cfg))
        (kBlockSize cfg) = true
    · rw [if_pos hw]
      by_cases hc : (((next + 1) % kNumBlocks cfg : Nat) == current) = true
      · rw [if_pos hc]; exact Or.inl rfl
      · rw [if_neg hc]
        exact Or.inr ⟨(next + 1) % kNumBlocks cfg, Nat.mod_lt _ hN, rfl⟩
    · rw [if_neg hw]
      by_cases hc : (((next + 1) % kNumBlocks cfg : Nat) == current) = true
      · rw [if_pos hc]; exact Or.inl rfl
      · rw [if_neg hc]
        exact ih _ (Or.inl (Nat.mod_lt _ hN)) hN

theorem nextWritableBlock_cases (cfg : Config) (d : NVDriver Mem) (s : Mem)
    (current : Int) (hN : 0 < kNumBlocks cfg) :
    NextWritableBlock d s cfg current = -1 ∨
    ∃ k : Nat, k < kNumBlocks cfg ∧ NextWritableBlock d s cfg current = (k : Int) := by
  unfold NextWritableBlock
  exact nextWritableAux_cases cfg d s _ (kNumBlocks cfg) _ (Or.inr hN) hN

theorem savePhaseWrite_success_shape (cfg : Config) (s' : Mem) (data : List Nat)
    (n seq' : Nat) (hlen : data.length = cfg.dataSize) (hseq : seq' < 65536)
    (hr : (savePhaseWrite (idealNV cfg) s' cfg data n seq').1 = Result.SUCCESS) :
    (savePhaseWrite (idealNV cfg) s' cfg data n seq').2.1
        = ⟨encodeBlock cfg data seq' (GetCRC cfg (data ++ le16 seq')), (n : Int), seq'⟩ ∧
    readBlock cfg (savePhaseWrite (idealNV cfg) s' cfg data n seq').2.2 n
        = encodeBlock cfg data seq' (GetCRC cfg (data ++ le16 seq')) ∧
    blockCrc cfg (encodeBlock cfg data seq' (GetCRC cfg (data ++ le16 seq')))
        = GetCRC cfg (encodeBlock cfg data seq' (GetCRC cfg (data ++ le16 seq'))) ∧
    blockSeq cfg (encodeBlock cfg data seq' (GetCRC cfg (data ++ le16 seq'))) = seq' := by
  have hcrclt : GetCRC cfg (data ++ le16 seq') < 65536 :=
    getCRC_lt cfg _ (by simp [le16])
  have hcrcfield := blockCrc_encodeBlock cfg data seq' _ hlen hcrclt
  have hcrcval : GetCRC cfg (encodeBlock cfg data seq' (GetCRC cfg (data ++ le16 seq')))
      = GetCRC cfg (data ++ le16 seq') := getCRC_encodeBlock cfg data seq' _ hlen
  have hseqfield := blockSeq_encodeBlock cfg data seq' (GetCRC cfg (data ++ le16 seq')) hlen hseq
  have hblen := encodeBlock_length cfg data seq' (GetCRC cfg (data ++ le16 seq')) hlen
  unfold savePhaseWrite at hr ⊢
  dsimp only at hr ⊢
  by_cases hir : BlockLocation cfg n
      + (encodeBlock cfg data seq' (GetCRC cfg (data ++ le16 seq'))).length ≤ cfg.memSize
  · have hwr : (idealNV cfg).Write s' (BlockLocation cfg n)
        (encodeBlock cfg data seq' (GetCRC cfg (data ++ le16 seq')))
        = some (updateBytes s' (BlockLocation cfg n)
            (encodeBlock cfg data seq' (GetCRC cfg (data ++ le16 seq')))) := by
      simp [idealNV, hir]
    rw [hwr]
    refine ⟨rfl, ?_, by rw [hcrcfield, hcrcval], hseqfield⟩
    show readBytes _ (BlockLocation cfg n) (kBlockSize cfg) = _
    rw [← hblen]
    exact readBytes_updateBytes_self s' (BlockLocation cfg n) _
  · exfalso
    have hwr : (idealNV cfg).Write s' (BlockLocation cfg n)
        (encodeBlock cfg data seq' (GetCRC cfg (data ++ le16 seq'))) = none := by
      simp [idealNV, hir]
    rw [hwr] at hr
    exact absurd hr (by simp)

end Persist

namespace Persist

theorem save_success_shape (cfg : Config) (M : Mem) (p : PState) (data : List Nat)
    (hN : 0 < kNumBlocks cfg) (hlen : data.length = cfg.dataSize)
    (hcons : Consistent cfg p M)
    (hr : (Save (idealNV cfg) M cfg p data).1 = Result.SUCCESS) :
    ∃ m : Nat, m < kNumBlocks cfg ∧
      (Save (idealNV cfg) M cfg p data).2.1.active = (m : Int) ∧
      readBlock cfg (Save (idealNV cfg) M cfg p data).2.2 m
        = (Save (idealNV cfg) M cfg p data).2.1.block ∧
      blockCrc cfg (Save (idealNV cfg) M cfg p data).2.1.block
        = GetCRC cfg (Save (idealNV cfg) M cfg p data).2.1.block ∧
      blockSeq cfg (Save (idealNV cfg) M cfg p data).2.1.block
        = (Save (idealNV cfg) M cfg p data).2.1.seq ∧
      (Save (idealNV cfg) M cfg p data).2.1.block.take cfg.dataSize = data := by
  by_cases hds : DataIsSame cfg p data = true
  · rw [save_of_dataIsSame _ _ _ _ _ hds]
    dsimp only
    unfold DataIsSame at hds
    simp only [Bool.and_eq_true, bne_iff_ne, beq_iff_eq] at hds
    rcases hcons with hc | ⟨n, hn, han, hblk, hcrc, hseq⟩
    · exact absurd hc hds.1
    · exact ⟨n, hn, han, hblk.symm, hcrc, hseq, hds.2⟩
  · unfold Save at hr ⊢
    rw [if_neg hds] at hr ⊢
    dsimp only at hr ⊢
    rcases nextWritableBlock_cases cfg (idealNV cfg) M p.active hN with hnw | ⟨k, hk, hnw⟩
    · rw [hnw] at hr ⊢
      rw [if_pos (by decide)] at hr ⊢
      by_cases hact : (p.active == -1) = true
      · rw [if_pos hact] at hr ⊢
        have her : (idealNV cfg).Erase M 0 (kNumPages cfg * kPageSize cfg)
            = some (updateBytes M 0
                (List.replicate (kNumPages cfg * kPageSize cfg) cfg.fillByte)) := by
          simp [idealNV]
          exact pages_le_memSize cfg
        rw [her] at hr ⊢
        have hsh := savePhaseWrite_success_shape cfg _ data 0 0 hlen (by norm_num) hr
        refine ⟨0, hN, ?_, ?_, ?_, ?_, ?_⟩
        · rw [hsh.1]
        · rw [hsh.1]; exact hsh.2.1
        · rw [hsh.1]; exact hsh.2.2.1
        · rw [hsh.1]; exact hsh.2.2.2
        · rw [hsh.1]; exact encodeBlock_take_data cfg data 0 _ hlen
      · rw [if_neg hact] at hr ⊢
        have hP : 0 < kNumPages cfg := kNumPages_pos cfg hN
        have hnp : (p.active.toNat / kBlocksPerPage cfg + 1) % kNumPages cfg
            < kNumPages cfg := Nat.mod_lt _ hP
        have hfit : (p.active.toNat / kBlocksPerPage cfg + 1) % kNumPages cfg
              * kPageSize cfg + kPageSize cfg ≤ cfg.memSize := by
          have h1 : ((p.active.toNat / kBlocksPerPage cfg + 1) % kNumPages cfg + 1)
              * kPageSize cfg ≤ kNumPages cfg * kPageSize cfg :=
            Nat.mul_le_mul_right _ hnp
          have h2 := pages_le_memSize cfg
          calc (p.active.toNat / kBlocksPerPage cfg + 1) % kNumPages cfg
                * kPageSize cfg + kPageSize cfg
              = ((p.active.toNat / kBlocksPerPage cfg + 1) % kNumPages cfg + 1)
                * kPageSize cfg := by ring
            _ ≤ kNumPages cfg * kPageSize cfg := h1
            _ ≤ cfg.memSize := h2
        have her : (idealNV cfg).Erase M
            ((p.active.toNat / kBlocksPerPage cfg + 1) % kNumPages cfg * kPageSize cfg)
            (kPageSize cfg)
            = some (updateBytes M
                ((p.active.toNat / kBlocksPerPage cfg + 1) % kNumPages cfg * kPageSize cfg)
                (List.replicate (kPageSize cfg) cfg.fillByte)) := by
          simp [idealNV]
          exact hfit
        rw [her] at hr ⊢
        have hkb : (p.active.toNat / kBlocksPerPage cfg + 1) % kNumPages cfg
            * kBlocksPerPage cfg < kNumBlocks cfg := page_mul_bpp_lt cfg hN hnp
        have hsh := savePhaseWrite_success_shape cfg _ data _ _ hlen
          (Nat.mod_lt _ (by norm_num)) hr
        refine ⟨(p.active.toNat / kBlocksPerPage cfg + 1) % kNumPages cfg
            * kBlocksPerPage cfg, hkb, ?_, ?_, ?_, ?_, ?_⟩
        · rw [hsh.1]
        · rw [hsh.1]; exact hsh.2.1
        · rw [hsh.1]; exact hsh.2.2.1
        · rw [hsh.1]; exact hsh.2.2.2
        · rw [hsh.1]; exact encodeBlock_take_data cfg data _ _ hlen
    · rw [hnw] at hr ⊢
      rw [if_neg (by simp)] at hr ⊢
      rw [show ((k : Int)).toNat = k by simp] at hr ⊢
      have hsh := savePhaseWrite_success_shape cfg _ data k _ hlen
        (Nat.mod_lt _ (by norm_num)) hr
      refine ⟨k, hk, ?_, ?_, ?_, ?_, ?_⟩
      · rw [hsh.1]
      · rw [hsh.1]; exact hsh.2.1
      · rw [hsh.1]; exact hsh.2.2.1
      · rw [hsh.1]; exact hsh.2.2.2
      · rw [hsh.1]; exact encodeBlock_take_data cfg data _ _ hlen

end Persist

namespace Persist

/-- C1 (amended): starting from a state consistent with the medium (as
`Init` establishes), if `Save data` succeeds and the new active block's
sequence number is accepted by the recovery comparator against every other
valid-CRC block left on the medium, then re-initialization finds the new
block and `Load` returns `SUCCESS` with exactly `data`. -/
theorem save_init_load_roundtrip (cfg : Config) (M : Mem) (p : PState)
    (data out : List Nat)
    (hN : 0 < kNumBlocks cfg) (hlen : data.length = cfg.dataSize)
    (hcons : Consistent cfg p M)
    (hr : (Save (idealNV cfg) M cfg p data).1 = Result.SUCCESS)
    (hwin : ∀ i, i < kNumBlocks cfg →
      ((i : Int) ≠ (Save (idealNV cfg) M cfg p data).2.1.active →
        blockCrc cfg (readBlock cfg (Save (idealNV cfg) M cfg p data).2.2 i)
          = GetCRC cfg (readBlock cfg (Save (idealNV cfg) M cfg p data).2.2 i) →
        acceptSeq (kNumBlocks cfg) (Save (idealNV cfg) M cfg p data).2.1.seq
          (blockSeq cfg (readBlock cfg (Save (idealNV cfg) M cfg p data).2.2 i)) = true)) :
    (Reset (idealNV cfg) (Save (idealNV cfg) M cfg p data).2.2 cfg
        (Save (idealNV cfg) M cfg p data).2.1).1 = Result.SUCCESS ∧
    Load cfg
        (Reset (idealNV cfg) (Save (idealNV cfg) M cfg p data).2.2 cfg
          (Save (idealNV cfg) M cfg p data).2.1).2 out
      = (Result.SUCCESS, data) := by
  obtain ⟨m, hm, hact, hrb, hcrc, hseq, htake⟩ :=
    save_success_shape cfg M p data hN hlen hcons hr
  set M1 := (Save (idealNV cfg) M cfg p data).2.2 with hM1
  set p1 := (Save (idealNV cfg) M cfg p data).2.1 with hp1
  have hvalid : blockCrc cfg (readBlock cfg M1 m) = GetCRC cfg (readBlock cfg M1 m) := by
    rw [hrb]; exact hcrc
  have hwin' : ∀ i, i < kNumBlocks cfg → i ≠ m →
      blockCrc cfg (readBlock cfg M1 i) = GetCRC cfg (readBlock cfg M1 i) →
      acceptSeq (kNumBlocks cfg) (blockSeq cfg (readBlock cfg M1 m))
        (blockSeq cfg (readBlock cfg M1 i)) = true := by
    intro i hi him hic
    have hne : (i : Int) ≠ p1.active := by
      rw [hact]
      intro hc
      exact him (by exact_mod_cast hc)
    have := hwin i hi hne hic
    rw [hrb, hseq]
    exact this
  have hreset := reset_finds_newest cfg M1 m p1 hm hvalid hwin'
  rw [hreset]
  refine ⟨rfl, ?_⟩
  unfold Load
  dsimp only
  rw [if_neg (by simp)]
  rw [hrb, htake]

end Persist

namespace Persist

/-- C1 counterexample. -/
theorem save_init_load_roundtrip_cex :
    (Init (idealNV cfgSmall) mediaStale cfgSmall pStart).1 = Result.SUCCESS ∧
    (Save (idealNV cfgSmall) mediaStale cfgSmall
        (Init (idealNV cfgSmall) mediaStale cfgSmall pStart).2 [2]).1 = Result.SUCCESS ∧
    (Reset (idealNV cfgSmall)
        (Save (idealNV cfgSmall) mediaStale cfgSmall
          (Init (idealNV cfgSmall) mediaStale cfgSmall pStart).2 [2]).2.2 cfgSmall
        (Save (idealNV cfgSmall) mediaStale cfgSmall
          (Init (idealNV cfgSmall) mediaStale cfgSmall pStart).2 [2]).2.1).1
      = Result.SUCCESS ∧
    (Load cfgSmall
        (Reset (idealNV cfgSmall)
          (Save (idealNV cfgSmall) mediaStale cfgSmall
            (Init (idealNV cfgSmall) mediaStale cfgSmall pStart).2 [2]).2.2 cfgSmall
          (Save (idealNV cfgSmall) mediaStale cfgSmall
            (Init (idealNV cfgSmall) mediaStale cfgSmall pStart).2 [2]).2.1).2 [9]).1
      = Result.SUCCESS ∧
    (Load cfgSmall
        (Reset (idealNV cfgSmall)
          (Save (idealNV cfgSmall) mediaStale cfgSmall
            (Init (idealNV cfgSmall) mediaStale cfgSmall pStart).2 [2]).2.2 cfgSmall
          (Save (idealNV cfgSmall) mediaStale cfgSmall
            (Init (idealNV cfgSmall) mediaStale cfgSmall pStart).2 [2]).2.1).2 [9]).2
      ≠ [2] := by
  decide

/-- Witness for `save_init_load_roundtrip`: a save on the virgin region. -/
theorem save_init_load_roundtrip_witness :
    (0 < kNumBlocks cfgSmall ∧
      (Save (idealNV cfgSmall) virginMem cfgSmall ⟨[255, 255, 255, 255, 255], -1, 0⟩ [2]).1
        = Result.SUCCESS) ∧
    ((Reset (idealNV cfgSmall)
        (Save (idealNV cfgSmall) virginMem cfgSmall
          ⟨[255, 255, 255, 255, 255], -1, 0⟩ [2]).2.2 cfgSmall
        (Save (idealNV cfgSmall) virginMem cfgSmall
          ⟨[255, 255, 255, 255, 255], -1, 0⟩ [2]).2.1).1 = Result.SUCCESS ∧
      Load cfgSmall
          (Reset (idealNV cfgSmall)
            (Save (idealNV cfgSmall) virginMem cfgSmall
              ⟨[255, 255, 255, 255, 255], -1, 0⟩ [2]).2.2 cfgSmall
            (Save (idealNV cfgSmall) virginMem cfgSmall
              ⟨[255, 255, 255, 255, 255], -1, 0⟩ [2]).2.1).2 [9]
        = (Result.SUCCESS, [2])) :=
  ⟨⟨by decide, by decide⟩,
    save_init_load_roundtrip cfgSmall virginMem ⟨[255, 255, 255, 255, 255], -1, 0⟩ [2] [9]
      (by decide) (by decide) (Or.inl rfl) (by decide) (by decide)⟩

end Persist

namespace Persist

theorem natCast_ne_neg_one (n : Nat) : (n : Int) ≠ -1 := by omega

theorem savePhaseWrite_dataIsSame {σ : Type} (d : NVDriver σ) (s : σ) (cfg : Config)
    (data : List Nat) (n sq : Nat) (hlen : data.length = cfg.dataSize)
    (hr : (savePhaseWrite d s cfg data n sq).1 = Result.SUCCESS) :
    DataIsSame cfg (savePhaseWrite d s cfg data n sq).2.1 data = true := by
  unfold savePhaseWrite at hr ⊢
  dsimp only at hr ⊢
  cases hw : d.Write s (BlockLocation cfg n)
      (encodeBlock cfg data sq (GetCRC cfg (data ++ le16 sq))) with
  | none => rw [hw] at hr; exact absurd hr (by simp)
  | some s2 =>
    unfold DataIsSame
    dsimp only
    rw [encodeBlock_take_data cfg data _ _ hlen]
    simp [natCast_ne_neg_one n]

theorem save_success_dataIsSame {σ : Type} (d : NVDriver σ) (s : σ) (cfg : Config)
    (p : PState) (data : List Nat) (hlen : data.length = cfg.dataSize)
    (hr : (Save d s cfg p data).1 = Result.SUCCESS) :
    DataIsSame cfg (Save d s cfg p data).2.1 data = true := by
  by_cases hds : DataIsSame cfg p data = true
  · rw [save_of_dataIsSame _ _ _ _ _ hds]
    exact hds
  · unfold Save at hr ⊢
    rw [if_neg hds] at hr ⊢
    dsimp only at hr ⊢
    by_cases hnw : (NextWritableBlock d s cfg p.active == -1) = true
    · rw [if_pos hnw] at hr ⊢
      by_cases hact : (p.active == -1) = true
      · rw [if_pos hact] at hr ⊢
        cases he : d.Erase s 0 (kNumPages cfg * kPageSize cfg) with
        | none => rw [he] at hr; exact absurd hr (by simp)
        | some s1 =>
          rw [he] at hr
          exact savePhaseWrite_dataIsSame d s1 cfg data 0 0 hlen hr
      · rw [if_neg hact] at hr ⊢
        cases he : d.Erase s
            ((p.active.toNat / kBlocksPerPage cfg + 1) % kNumPages cfg * kPageSize cfg)
            (kPageSize cfg) with
        | none => rw [he] at hr; exact absurd hr (by simp)
        | some s1 =>
          rw [he] at hr
          exact savePhaseWrite_dataIsSame d s1 cfg data _ _ hlen hr
    · rw [if_neg hnw] at hr ⊢
      exact savePhaseWrite_dataIsSame d s cfg data _ _ hlen hr

theorem savePhaseWrite_counts {σ : Type} (d : NVDriver σ) (t : σ × Nat × Nat)
    (cfg : Config) (data : List Nat) (n seq' : Nat) :
    ((savePhaseWrite (countingDriver d) t cfg data n seq').2.2).2.1 ≤ t.2.1 + 1 ∧
    ((savePhaseWrite (countingDriver d) t cfg data n seq').2.2).2.2 = t.2.2 := by
  unfold savePhaseWrite countingDriver
  dsimp only
  cases hw : d.Write t.1 (BlockLocation cfg n)
      (encodeBlock cfg data seq' (GetCRC cfg (data ++ le16 seq'))) with
  | none => simp [hw]
  | some a => simp [hw]

theorem save_counts {σ : Type} (d : NVDriver σ) (s : σ) (w e : Nat) (cfg : Config)
    (p : PState) (data : List Nat) :
    ((Save (countingDriver d) (s, w, e) cfg p data).2.2).2.1 ≤ w + 1 ∧
    ((Save (countingDriver d) (s, w, e) cfg p data).2.2).2.2 ≤ e + 1 := by
  unfold Save
  dsimp only
  split
  · simp
  · split
    · split
      · cases he : d.Erase s 0 (kNumPages cfg * kPageSize cfg) with
        | none => simp [countingDriver, he]
        | some a =>
          have hc : (countingDriver d).Erase (s, w, e) 0 (kNumPages cfg * kPageSize cfg)
              = some (a, w, e + 1) := by simp [countingDriver, he]
          rw [hc]
          have := savePhaseWrite_counts d (a, w, e + 1) cfg data 0 0
          dsimp only at this
          exact ⟨this.1, le_of_eq this.2⟩
      · cases he : d.Erase s
            ((p.active.toNat / kBlocksPerPage cfg + 1) % kNumPages cfg * kPageSize cfg)
            (kPageSize cfg) with
        | none => simp [countingDriver, he]
        | some a =>
          have hc : (countingDriver d).Erase (s, w, e)
              ((p.active.toNat / kBlocksPerPage cfg + 1) % kNumPages cfg * kPageSize cfg)
              (kPageSize cfg) = some (a, w, e + 1) := by simp [countingDriver, he]
          rw [hc]
          have := savePhaseWrite_counts d (a, w, e + 1) cfg data
            ((p.active.toNat / kBlocksPerPage cfg + 1) % kNumPages cfg * kBlocksPerPage cfg)
            ((p.seq + 1) % 65536)
          dsimp only at this
          exact ⟨this.1, le_of_eq this.2⟩
    · have := savePhaseWrite_counts d (s, w, e) cfg data
        (NextWritableBlock (countingDriver d) (s, w, e) cfg p.active).toNat
        ((p.seq + 1) % 65536)
      exact ⟨this.1, le_trans (le_of_eq this.2) (Nat.le_succ e)⟩

end Persist

namespace Persist

/-- C7 (amended): the short-circuit holds — with cached data equal to the
argument, `Save` is a complete no-op (`SUCCESS`, state and operation
counters unchanged).  Consequently, after any successful `Save(d)`, a
second `Save(d)` performs no NVMem operation, and the pair performs at most
one `Write` and at most one `Erase` (zero erases whenever the first `Save`
did not itself erase). -/
theorem save_short_circuit_and_pair {σ : Type} (d : NVDriver σ) (s : σ) (w e : Nat)
    (cfg : Config) (p : PState) (data : List Nat) (hlen : data.length = cfg.dataSize) :
    (DataIsSame cfg p data = true →
      Save (countingDriver d) (s, w, e) cfg p data = (Result.SUCCESS, p, (s, w, e))) ∧
    ((Save (countingDriver d) (s, w, e) cfg p data).1 = Result.SUCCESS →
      Save (countingDriver d) ((Save (countingDriver d) (s, w, e) cfg p data).2.2) cfg
          ((Save (countingDriver d) (s, w, e) cfg p data).2.1) data
        = (Result.SUCCESS, (Save (countingDriver d) (s, w, e) cfg p data).2.1,
            (Save (countingDriver d) (s, w, e) cfg p data).2.2)) ∧
    ((Save (countingDriver d) (s, w, e) cfg p data).2.2).2.1 ≤ w + 1 ∧
    ((Save (countingDriver d) (s, w, e) cfg p data).2.2).2.2 ≤ e + 1 :=
  ⟨fun h => save_of_dataIsSame _ _ _ _ _ h,
    fun hr => save_of_dataIsSame _ _ _ _ _
      (save_success_dataIsSame _ _ _ _ _ hlen hr),
    (save_counts d s w e cfg p data).1, (save_counts d s w e cfg p data).2⟩

/-- Witness for `save_short_circuit_and_pair`: the virgin `cfgSmall` region
after `Init`. -/
theorem save_short_circuit_and_pair_witness :
    ([2] : List Nat).length = cfgSmall.dataSize ∧
    ((DataIsSame cfgSmall ⟨[255, 255, 255, 255, 255], -1, 0⟩ [2] = true →
        Save (countingDriver (idealNV cfgSmall)) (virginMem, 0, 0) cfgSmall
            ⟨[255, 255, 255, 255, 255], -1, 0⟩ [2]
          = (Result.SUCCESS, ⟨[255, 255, 255, 255, 255], -1, 0⟩, (virginMem, 0, 0))) ∧
      ((Save (countingDriver (idealNV cfgSmall)) (virginMem, 0, 0) cfgSmall
            ⟨[255, 255, 255, 255, 255], -1, 0⟩ [2]).1 = Result.SUCCESS →
        Save (countingDriver (idealNV cfgSmall))
            ((Save (countingDriver (idealNV cfgSmall)) (virginMem, 0, 0) cfgSmall
              ⟨[255, 255, 255, 255, 255], -1, 0⟩ [2]).2.2) cfgSmall
            ((Save (countingDriver (idealNV cfgSmall)) (virginMem, 0, 0) cfgSmall
              ⟨[255, 255, 255, 255, 255], -1, 0⟩ [2]).2.1) [2]
          = (Result.SUCCESS,
              (Save (countingDriver (idealNV cfgSmall)) (virginMem, 0, 0) cfgSmall
                ⟨[255, 255, 255, 255, 255], -1, 0⟩ [2]).2.1,
              (Save (countingDriver (idealNV cfgSmall)) (virginMem, 0, 0) cfgSmall
                ⟨[255, 255, 255, 255, 255], -1, 0⟩ [2]).2.2)) ∧
      ((Save (countingDriver (idealNV cfgSmall)) (virginMem, 0, 0) cfgSmall
          ⟨[255, 255, 255, 255, 255], -1, 0⟩ [2]).2.2).2.1 ≤ 0 + 1 ∧
      ((Save (countingDriver (idealNV cfgSmall)) (virginMem, 0, 0) cfgSmall
          ⟨[255, 255, 255, 255, 255], -1, 0⟩ [2]).2.2).2.2 ≤ 0 + 1) :=
  ⟨by decide,
    save_short_circuit_and_pair (idealNV cfgSmall) virginMem 0 0 cfgSmall
      ⟨[255, 255, 255, 255, 255], -1, 0⟩ [2] (by decide)⟩

/-- C7 counterexample: starting from the post-`Init` state of a full region
(every block carries non-fill bytes and no valid CRC), `Save(d); Save(d)`
performs exactly one `Erase`, refuting the claimed zero-erase bound for the
pair. -/
theorem double_save_erase_cex :
    (Reset (countingDriver (idealNV cfgSmall)) (zeroMem, 0, 0) cfgSmall pStart).2
        = pStart ∧
    (Save (countingDriver (idealNV cfgSmall)) (zeroMem, 0, 0) cfgSmall pStart [2]).1
        = Result.SUCCESS ∧
    (Save (countingDriver (idealNV cfgSmall))
        (Save (countingDriver (idealNV cfgSmall)) (zeroMem, 0, 0) cfgSmall pStart
          [2]).2.2 cfgSmall
        (Save (countingDriver (idealNV cfgSmall)) (zeroMem, 0, 0) cfgSmall pStart
          [2]).2.1 [2]).1 = Result.SUCCESS ∧
    ((Save (countingDriver (idealNV cfgSmall))
        (Save (countingDriver (idealNV cfgSmall)) (zeroMem, 0, 0) cfgSmall pStart
          [2]).2.2 cfgSmall
        (Save (countingDriver (idealNV cfgSmall)) (zeroMem, 0, 0) cfgSmall pStart
          [2]).2.1 [2]).2.2).2.2 = 1 := by
  decide

end Persist

namespace Crc16

theorem xor_mod_two_pow (x y k : Nat) : (x ^^^ y) % 2 ^ k = x % 2 ^ k ^^^ y % 2 ^ k := by
  apply Nat.eq_of_testBit_eq
  intro i
  simp only [Nat.testBit_mod_two_pow, Nat.testBit_xor]
  cases hx : x.testBit i <;> cases hy : y.testBit i <;> cases hik : decide (i < k) <;> rfl

theorem xor_shiftLeft_distrib (x y k : Nat) : (x ^^^ y) <<< k = x <<< k ^^^ y <<< k := by
  apply Nat.eq_of_testBit_eq
  intro i
  simp only [Nat.testBit_shiftLeft, Nat.testBit_xor]
  cases hx : x.testBit (i - k) <;> cases hy : y.testBit (i - k) <;>
    cases hik : decide (i ≥ k) <;> rfl

theorem and_mask_eq_mod (x k : Nat) : x &&& (2 ^ k - 1) = x % 2 ^ k := by
  apply Nat.eq_of_testBit_eq
  intro i
  simp only [Nat.testBit_and, Nat.testBit_two_pow_sub_one, Nat.testBit_mod_two_pow]
  cases hx : x.testBit i <;> cases hik : decide (i < k) <;> rfl

theorem shiftRight_shiftLeft_xor_mask (c k : Nat) :
    ((c >>> k) <<< k) ^^^ (c &&& (2 ^ k - 1)) = c := by
  apply Nat.eq_of_testBit_eq
  intro i
  simp only [Nat.testBit_xor, Nat.testBit_shiftLeft, Nat.testBit_shiftRight,
    Nat.testBit_and, Nat.testBit_two_pow_sub_one]
  rcases Nat.lt_or_ge i k with h | h
  · have h1 : decide (i ≥ k) = false := by simp; omega
    have h2 : decide (i < k) = true := by simp [h]
    rw [h1, h2]
    cases c.testBit i <;> rfl
  · have h1 : decide (i ≥ k) = true := by simp [h]
    have h2 : decide (i < k) = false := by simp; omega
    have h3 : k + (i - k) = i := by omega
    rw [h1, h2, h3]
    cases c.testBit i <;> rfl

theorem xor_xor_cancel (a b p : Nat) : (a ^^^ p) ^^^ (b ^^^ p) = a ^^^ b := by
  apply Nat.eq_of_testBit_eq
  intro i
  simp only [Nat.testBit_xor]
  cases a.testBit i <;> cases b.testBit i <;> cases p.testBit i <;> rfl

theorem xor_rot (a b p : Nat) : (a ^^^ b) ^^^ p = (a ^^^ p) ^^^ b := by
  apply Nat.eq_of_testBit_eq
  intro i
  simp only [Nat.testBit_xor]
  cases a.testBit i <;> cases b.testBit i <;> cases p.testBit i <;> rfl

theorem and_msb_ne_iff (z : Nat) : z &&& 0x8000 ≠ 0 ↔ z.testBit 15 = true := by
  rw [show (0x8000 : Nat) = 2 ^ 15 by norm_num, Nat.and_two_pow]
  cases h : z.testBit 15 <;> simp

theorem crcRound_lt (x : Nat) : crcRound x < 65536 := by
  unfold crcRound
  split
  · exact Nat.xor_lt_two_pow (n := 16) (Nat.mod_lt _ (by norm_num)) (by norm_num [kPolynomial])
  · exact Nat.mod_lt _ (by norm_num)

theorem crcRound_xor (x y : Nat) : crcRound (x ^^^ y) = crcRound x ^^^ crcRound y := by
  have hshift : ((x ^^^ y) <<< 1) % 65536 = ((x <<< 1) % 65536) ^^^ ((y <<< 1) % 65536) := by
    rw [xor_shiftLeft_distrib, show (65536 : Nat) = 2 ^ 16 by norm_num, xor_mod_two_pow]
  have hxyt : (x ^^^ y).testBit 15 = ((x.testBit 15) ^^ (y.testBit 15)) :=
    Nat.testBit_xor x y 15
  unfold crcRound
  by_cases hx : x.testBit 15 = true <;> by_cases hy : y.testBit 15 = true
  · rw [if_neg (by rw [and_msb_ne_iff, hxyt, hx, hy]; simp),
      if_pos ((and_msb_ne_iff x).mpr hx), if_pos ((and_msb_ne_iff y).mpr hy),
      hshift, xor_xor_cancel]
  · rw [if_pos (by rw [and_msb_ne_iff, hxyt, hx, Bool.eq_false_iff.mpr hy]; rfl),
      if_pos ((and_msb_ne_iff x).mpr hx),
      if_neg (by rw [and_msb_ne_iff]; exact hy),
      hshift]
    exact xor_rot _ _ _
  · rw [if_pos (by rw [and_msb_ne_iff, hxyt, hy, Bool.eq_false_iff.mpr hx]; rfl),
      if_neg (by rw [and_msb_ne_iff]; exact hx),
      if_pos ((and_msb_ne_iff y).mpr hy),
      hshift]
    exact Nat.xor_assoc _ _ _
  · rw [if_neg (by rw [and_msb_ne_iff, hxyt, Bool.eq_false_iff.mpr hx,
        Bool.eq_false_iff.mpr hy]; simp),
      if_neg (by rw [and_msb_ne_iff]; exact hx),
      if_neg (by rw [and_msb_ne_iff]; exact hy),
      hshift]

theorem crcRounds_xor (n : Nat) : ∀ x y : Nat,
    crcRounds n (x ^^^ y) = crcRounds n x ^^^ crcRounds n y := by
  induction n with
  | zero => intro x y; rfl
  | succ k ih =>
    intro x y
    show crcRounds k (crcRound (x ^^^ y)) = _
    rw [crcRound_xor, ih]
    rfl

theorem crcRounds_lt (n x : Nat) (h : 0 < n) : crcRounds n x < 65536 := by
  induction n generalizing x with
  | zero => omega
  | succ k ih =>
    rcases Nat.eq_zero_or_pos k with hk | hk
    · subst hk
      exact crcRound_lt x
    · exact ih (crcRound x) hk

set_option maxRecDepth 4096 in
theorem crcRounds_eight_small : ∀ lo : Nat, lo < 256 → crcRounds 8 lo = lo <<< 8 := by
  decide

end Crc16

namespace Crc16

theorem specRound_lt (x : Nat) : specRound x < 65536 := by
  unfold specRound
  split
  · exact Nat.mod_lt _ (by norm_num)
  · exact Nat.xor_lt_two_pow (n := 16) (Nat.mod_lt _ (by norm_num)) (by norm_num)

theorem msb_iff (x : Nat) (hx : x < 65536) : x &&& 0x8000 ≠ 0 ↔ ¬ x < 0x8000 := by
  rw [and_msb_ne_iff, Nat.testBit_to_div_mod, decide_eq_true_eq]
  omega

theorem specRound_eq_crcRound (x : Nat) (hx : x < 65536) : specRound x = crcRound x := by
  unfold specRound crcRound kPolynomial
  have h2 : x <<< 1 = 2 * x := by rw [Nat.shiftLeft_eq]; ring
  by_cases h : x < 0x8000
  · rw [if_pos h, if_neg (by rw [msb_iff x hx]; exact not_not_intro h), h2]
  · rw [if_neg h, if_pos ((msb_iff x hx).mpr h), h2]

theorem specRounds_eq_crcRounds (n : Nat) : ∀ x : Nat, x < 65536 →
    specCrcByte.crcRoundsSpec n x = crcRounds n x := by
  induction n with
  | zero => intro x _; rfl
  | succ k ih =>
    intro x hx
    show specCrcByte.crcRoundsSpec k (specRound x) = crcRounds k (crcRound x)
    rw [specRound_eq_crcRound x hx, ih _ (by rw [← specRound_eq_crcRound x hx]; exact specRound_lt x)]

theorem processByte_eq_specCrcByte (c b : Nat) (hc : c < 65536) (hb : b < 256) :
    ProcessByte c b = specCrcByte c b := by
  have hhi : c >>> 8 < 256 := by
    rw [Nat.shiftRight_eq_div_pow]
    omega
  have hxb : (c >>> 8) ^^^ b < 256 := Nat.xor_lt_two_pow (n := 8) hhi hb
  have hmask : ((c >>> 8) ^^^ b) &&& 0xFF = (c >>> 8) ^^^ b := by
    rw [show (0xFF : Nat) = 2 ^ 8 - 1 by norm_num, and_mask_eq_mod]
    omega
  have hlo : c &&& 0xFF = c % 256 := by
    rw [show (0xFF : Nat) = 2 ^ 8 - 1 by norm_num, and_mask_eq_mod]
    norm_num
  -- the table pair folds to eight rounds on the full index byte
  have hnib : ∀ j : Nat, j < 256 →
      ltable (j &&& 0xF) ^^^ htable (j >>> 4) = crcRounds 8 (j <<< 8) := by
    intro j hj
    have hjlo : j &&& 0xF < 16 := by
      rw [show (0xF : Nat) = 2 ^ 4 - 1 by norm_num, and_mask_eq_mod]
      have := Nat.mod_lt j (y := 16) (by norm_num)
      simpa using this
    have hjhi : j >>> 4 < 16 := by
      rw [Nat.shiftRight_eq_div_pow]
      omega
    unfold ltable htable ComputeTableEntry
    have e1 : ((j &&& 0xF) <<< 8) % 65536 = (j &&& 0xF) <<< 8 := by
      rw [Nat.shiftLeft_eq]
      apply Nat.mod_eq_of_lt
      omega
    have e2 : ((j >>> 4) <<< 4) % 65536 = (j >>> 4) <<< 4 := by
      rw [Nat.shiftLeft_eq]
      apply Nat.mod_eq_of_lt
      omega
    have e3 : (((j >>> 4) <<< 4) <<< 8) % 65536 = ((j >>> 4) <<< 4) <<< 8 := by
      rw [Nat.shiftLeft_eq, Nat.shiftLeft_eq]
      apply Nat.mod_eq_of_lt
      have : (j >>> 4) <<< 4 < 256 := by
        rw [Nat.shiftLeft_eq]
        omega
      omega
    rw [e1, e2, e3, ← crcRounds_xor, ← xor_shiftLeft_distrib]
    have hdec : (j &&& 0xF) ^^^ ((j >>> 4) <<< 4) = j := by
      rw [Nat.xor_comm, show (0xF : Nat) = 2 ^ 4 - 1 by norm_num]
      exact shiftRight_shiftLeft_xor_mask j 4
    rw [hdec]
  unfold ProcessByte specCrcByte
  dsimp only
  rw [hmask, Nat.xor_assoc, hnib _ hxb]
  -- left side: ((c <<< 8) ^^^ rounds) % 65536 = ((c % 256) <<< 8) ^^^ rounds
  have hA : (c <<< 8) % 65536 = (c % 256) <<< 8 := by
    rw [Nat.shiftLeft_eq, Nat.shiftLeft_eq]
    omega
  have hR : crcRounds 8 (((c >>> 8) ^^^ b) <<< 8) % 65536
      = crcRounds 8 (((c >>> 8) ^^^ b) <<< 8) :=
    Nat.mod_eq_of_lt (crcRounds_lt 8 _ (by norm_num))
  rw [show (65536 : Nat) = 2 ^ 16 by norm_num, xor_mod_two_pow,
    show (2 ^ 16 : Nat) = 65536 by norm_num, hA, hR]
  -- right side
  have hz : (c ^^^ b <<< 8) % 65536 = c ^^^ b <<< 8 := by
    apply Nat.mod_eq_of_lt
    apply Nat.xor_lt_two_pow (n := 16) hc
    rw [Nat.shiftLeft_eq]
    omega
  rw [hz, specRounds_eq_crcRounds 8 _ (by rw [← hz]; exact Nat.mod_lt _ (by norm_num))]
  have hdecomp : c ^^^ b <<< 8 = (((c >>> 8) ^^^ b) <<< 8) ^^^ (c &&& 0xFF) := by
    conv_lhs => rw [← shiftRight_shiftLeft_xor_mask c 8]
    rw [show (2 ^ 8 - 1 : Nat) = 0xFF by norm_num]
    rw [xor_rot, ← xor_shiftLeft_distrib]
  rw [hdecomp, crcRounds_xor, hlo,
    crcRounds_eight_small (c % 256) (Nat.mod_lt _ (by norm_num))]
  rw [Nat.xor_comm]

end Crc16

namespace Crc16

set_option maxHeartbeats 1600000 in
/-- C9: the two-nibble-table `Crc16::Process` routine computes exactly the
same value as the reference bitwise MSB-first CRC-16 with polynomial
`0x1021`, no input or output reflection and no final xor, applied
byte-by-byte from any 16-bit seed. -/
theorem process_eq_reference (seed : Nat) (bytes : List Nat) (hs : seed < 65536)
    (hb : ∀ b ∈ bytes, b < 256) : Process seed bytes = specCrc seed bytes := by
  induction bytes generalizing seed with
  | nil => rfl
  | cons x rest ih =>
    simp only [Process, specCrc] at ih ⊢
    rw [List.foldl_cons, List.foldl_cons,
      ← processByte_eq_specCrcByte seed x hs (hb x (by simp))]
    exact ih _ (Persist.processByte_lt seed x) (fun b hbm => hb b (by simp [hbm]))

/-- Witness for `process_eq_reference` on the seed `0xFF00` (the version-0
block seed) and a concrete 3-byte message. -/
theorem process_eq_reference_witness :
    (0xFF00 : Nat) < 65536 ∧ (∀ b ∈ [1, 10, 0], b < 256) ∧
    Process 0xFF00 [1, 10, 0] = specCrc 0xFF00 [1, 10, 0] :=
  ⟨by decide, by decide, process_eq_reference 0xFF00 [1, 10, 0] (by decide) (by decide)⟩

end Crc16
